import Mathlib

/-!
# Vintage-cohort decomposition engine — formal model

Shallow embedding of `derive_vintage_cohorts_from_statistics` and its helpers
(`setInitial_Flat`, `setInitial_Triangle`, `setHistorical`, `reduceVintages`)
from `powerplantmatching/heuristics.py`.

Modelling conventions:
* Calendar years are `ℤ`; capacities are exact rationals `ℚ` (the Python uses
  floats; all claims are proved in exact arithmetic, which is stronger than the
  "within floating-point tolerance" phrasing of the spec).
* The pandas `DataFrame` ledger `mat` is a `Mat`: a list of row labels
  (`mat.index`, in order, growing by `.loc`-enlargement exactly when a row
  label that is not yet present is assigned), the last column label
  (`mat.columns[-1]`, fixed at creation), and a cell map `ℤ → ℤ → Option ℚ`
  where `none` models `NaN` (the initial value of every cell).
* `float('nan') > 0` is `False` in Python; we model reads that feed a `> 0`
  test by `(… ).getD 0`, which falls into the same branch.
* The per-group statistic series `df` is a `List (ℤ × ℚ)` of
  (Year, Capacity) rows in frame order; `df.index[k]` is the k-th year,
  `df.loc[y]` is the first row labelled `y`.
-/

/-- The integer interval `[lo, hi]` as a list, in increasing order.  Models a
`range(lo, hi+1)` loop and the integer row/column labels of the ledger. -/
def rangeInt (lo hi : ℤ) : List ℤ :=
  (List.range (hi + 1 - lo).toNat).map (fun n : ℕ => lo + (n : ℤ))

/-- The cohort ledger `mat`: row labels (`mat.index`), the last column label
(`mat.columns[-1]`), and the cells (`none` = `NaN`). -/
structure Mat where
  rows : List ℤ
  colLast : ℤ
  val : ℤ → ℤ → Option ℚ

/-- `mat.loc[v, lo:hi] = q`: label-based slice assignment, both endpoints
inclusive; assigning to a missing row label appends it (pandas
setting-with-enlargement). -/
def locSet (m : Mat) (v lo hi : ℤ) (q : ℚ) : Mat where
  rows := if v ∈ m.rows then m.rows else m.rows ++ [v]
  colLast := m.colLast
  val := fun r c => if r = v ∧ lo ≤ c ∧ c ≤ hi then some q else m.val r c

/-- `mat.loc[:, c].sum()`: sum of column `c` over all rows, skipping `NaN`
(pandas sums treat `NaN` as 0). -/
def colSum (m : Mat) (c : ℤ) : ℚ :=
  (m.rows.map (fun r => (m.val r c).getD 0)).sum

/-- `y in df.index` / `df.loc[y].Capacity`: the capacity of the first row of
the series labelled with year `y`, if any. -/
def statAt (stats : List (ℤ × ℚ)) (y : ℤ) : Option ℚ :=
  (stats.find? (fun p => p.1 == y)).map Prod.snd

/-- `df.index.max()`. -/
def yearsMax (stats : List (ℤ × ℚ)) : ℤ :=
  match stats.map Prod.fst with
  | [] => 0
  | y :: ys => ys.foldl max y

/-- `setInitial_Flat(mat, df, life)`: every one of the `life` pre-history
vintages `int(mat.index[0]) … y_start` receives `C0 / life` on its survival
window `[y, min(y+life-1, mat.columns[-1])]`.

On an empty frame `df.index[0]` would raise, and on an empty ledger index
`mat.index[0]` would raise; neither happens in a real call (groups are
nonempty and the engine builds a nonempty index whenever `life ≥ 2` or the
series has two or more years).  The fallbacks (`m` unchanged, and
`y_start - life + 1`, the value `mat.index[0]` has whenever it exists) mark
those unreachable paths. -/
def setInitial_Flat (m : Mat) (stats : List (ℤ × ℚ)) (life : ℕ) : Mat :=
  match stats with
  | [] => m
  | (y_start, c0) :: _ =>
    let height_flat : ℚ := c0 / (life : ℚ)
    let start : ℤ := m.rows.head?.getD (y_start - (life : ℤ) + 1)
    (rangeInt start y_start).foldl
      (fun mm y => locSet mm y y (min (y + (life : ℤ) - 1) mm.colLast) height_flat) m

/-- `setInitial_Triangle(mat, df, life)`: the `life` pre-history vintages
receive a linearly increasing series (`series`, reversed so the oldest vintage
gets the smallest value), looked up through the `dict(zip(years, series))`.
A year missing from the dict would raise `KeyError` in Python; the `getD 0`
fallback marks that unreachable path (the loop range and `years` coincide in
every real call). -/
def setInitial_Triangle (m : Mat) (stats : List (ℤ × ℚ)) (life : ℕ) : Mat :=
  match stats with
  | [] => m
  | (y_start, c0) :: _ =>
    let years : List ℤ := rangeInt (y_start - (life : ℤ) + 1) y_start
    let height_flat : ℚ := c0 / (life : ℚ)
    let decr : ℚ := 2 * height_flat / (life : ℚ)
    let height_tri : ℚ := 2 * height_flat - decr / 2
    let series : List ℚ :=
      ((List.range life).map (fun i : ℕ => height_tri - (i : ℚ) * decr)).reverse
    let dic : List (ℤ × ℚ) := years.zip series
    let start : ℤ := m.rows.head?.getD (y_start - (life : ℤ) + 1)
    (rangeInt start y_start).foldl
      (fun mm y =>
        locSet mm y y (min (y + (life : ℤ) - 1) mm.colLast)
          (((dic.find? (fun p => p.1 == y)).map Prod.snd).getD 0)) m

/-- The `for year in mat.index:` loop body sequence of `reduceVintages`:
walk the (frozen) row-label list; rows whose value at `y_pres` is `NaN` or
not positive are skipped; a row holding less than the outstanding deficit is
zeroed from `y_pres` to its window end and the loop continues; otherwise the
row is reduced and the loop breaks. -/
def reduceGo (life : ℕ) (y_pres : ℤ) : ℚ → Mat → List ℤ → Mat
  | _, m, [] => m
  | addition, m, year :: rest =>
    let val_rem : ℚ := (m.val year y_pres).getD 0
    if 0 < val_rem then
      if val_rem < |addition| then
        reduceGo life y_pres (addition + val_rem)
          (locSet m year y_pres (year + (life : ℤ) - 1) 0) rest
      else
        locSet m year y_pres (year + (life : ℤ) - 1) (val_rem + addition)
    else
      reduceGo life y_pres addition m rest

/-- `reduceVintages(addition, mat, life, y_pres)`. -/
def reduceVintages (addition : ℚ) (m : Mat) (life : ℕ) (y_pres : ℤ) : Mat :=
  reduceGo life y_pres addition m m.rows

/-- The value the Python loop variable `addition` holds when `reduceVintages`
returns: still-negative (a pending, silently dropped deficit) when the loop
exhausted every row, and `0` when the loop broke after applying the whole
deficit to a row.  Nothing in the source inspects this value — it is the
instrumentation needed to talk about the "loop ran out of vintages" case. -/
def reduceShortfallGo (life : ℕ) (y_pres : ℤ) : ℚ → Mat → List ℤ → ℚ
  | addition, _, [] => addition
  | addition, m, year :: rest =>
    let val_rem : ℚ := (m.val year y_pres).getD 0
    if 0 < val_rem then
      if val_rem < |addition| then
        reduceShortfallGo life y_pres (addition + val_rem)
          (locSet m year y_pres (year + (life : ℤ) - 1) 0) rest
      else 0
    else
      reduceShortfallGo life y_pres addition m rest

/-- Pending deficit left over by a `reduceVintages` call (see
`reduceShortfallGo`). -/
def reduceShortfall (addition : ℚ) (m : Mat) (life : ℕ) (y_pres : ℤ) : ℚ :=
  reduceShortfallGo life y_pres addition m m.rows

/-- One iteration of the `while year <= df.index.max():` loop body of
`setHistorical`. -/
def stepYear (stats : List (ℤ × ℚ)) (life : ℕ) (m : Mat) (year : ℤ) : Mat :=
  match statAt stats year with
  | some cap =>
    let addition := cap - colSum m year
    if 0 ≤ addition then
      locSet m year year (year + (life : ℤ) - 1) addition
    else
      reduceVintages addition (locSet m year year (year + (life : ℤ) - 1) 0) life year
  | none => locSet m year year (year + (life : ℤ) - 1) 0

/-- `n` iterations of the `setHistorical` loop starting at `year`. -/
def walkYears (stats : List (ℤ × ℚ)) (life : ℕ) : Mat → ℤ → ℕ → Mat
  | m, _, 0 => m
  | m, year, Nat.succ n => walkYears stats life (stepYear stats life m year) (year + 1) n

/-- `setHistorical(mat, df, life)`: walk `year` from `df.index[1]` (the base
year was already handled by `setInitial`) up to `df.index.max()` inclusive.
With fewer than two rows `df.index[1]` would raise; the engine only calls
`setHistorical` when the series has at least two distinct years. -/
def setHistorical (m : Mat) (stats : List (ℤ × ℚ)) (life : ℕ) : Mat :=
  match stats with
  | _ :: (y1, _) :: _ => walkYears stats life m y1 (yearsMax stats + 1 - y1).toNat
  | _ => m

/-- The per-(Country, Technology) group body of
`derive_vintage_cohorts_from_statistics`: build the empty ledger with row
labels `range(y_start-life+1, y_end)` and columns up to `y_end+life-1`, run
the initial distribution (`triangle` selects `setInitial_Triangle`, the mode
used for `Solar`/`Wind`/`Bioenergy`/`Geothermal`), then the forward walk when
`y_end > y_start`.  `groupby` never yields an empty group, so the `[]` arm is
unreachable. -/
def buildMat : List (ℤ × ℚ) → ℕ → Bool → Mat
  | [], _, _ => { rows := [], colLast := 0, val := fun _ _ => none }
  | (y_start, c0) :: rest, life, triangle =>
    let stats := (y_start, c0) :: rest
    let y_end := (rest.getLastD (y_start, c0)).1
    let m0 : Mat :=
      { rows := rangeInt (y_start - (life : ℤ) + 1) (y_end - 1)
        colLast := y_end + (life : ℤ) - 1
        val := fun _ _ => none }
    let m1 := if triangle then setInitial_Triangle m0 stats life
              else setInitial_Flat m0 stats life
    if y_start < y_end then setHistorical m1 stats life else m1

/-- `np.isclose(c, 0)` with the NumPy defaults `rtol=1e-5, atol=1e-8` against
the reference value 0: `|c| ≤ 1e-8`. -/
def isclose0 (c : ℚ) : Bool := |c| ≤ 1 / 100000000

/-- The output rows of one group: `add.Capacity = list(mat.loc[:, base_year])`
paired with `add.Year = mat.index.tolist()`, filtered by
`add[add.Capacity > 0.0]` and finally by `~np.isclose(dfe.Capacity, 0)`.
A `NaN` capacity fails the `> 0.0` comparison, as does `(… ).getD 0`. -/
def outputRows (stats : List (ℤ × ℚ)) (life : ℕ) (triangle : Bool)
    (base_year : ℤ) : List (ℤ × ℚ) :=
  let m := buildMat stats life triangle
  ((m.rows.map (fun v => (v, (m.val v base_year).getD 0))).filter
      (fun p => decide (0 < p.2))).filter (fun p => ! isclose0 p.2)

/-- `True` iff the step for `year` takes the `addition < 0` branch, i.e.
invokes `reduceVintages`. -/
def stepInvokesReducer (stats : List (ℤ × ℚ)) (_life : ℕ) (m : Mat) (year : ℤ) : Bool :=
  match statAt stats year with
  | some cap => decide (cap - colSum m year < 0)
  | none => false

/-- The years at which the `setHistorical` loop invokes `reduceVintages`
(instrumentation of `walkYears`). -/
def reducerYears (stats : List (ℤ × ℚ)) (life : ℕ) : Mat → ℤ → ℕ → List ℤ
  | _, _, 0 => []
  | m, year, Nat.succ n =>
    (if stepInvokesReducer stats life m year then [year] else []) ++
      reducerYears stats life (stepYear stats life m year) (year + 1) n

/-- The years at which a whole decomposition run invokes `reduceVintages`
(empty when the forward walk does not run at all). -/
def reducerYearsRun : List (ℤ × ℚ) → ℕ → Bool → List ℤ
  | [], _, _ => []
  | (y_start, c0) :: rest, life, triangle =>
    let stats := (y_start, c0) :: rest
    let y_end := (rest.getLastD (y_start, c0)).1
    let m0 : Mat :=
      { rows := rangeInt (y_start - (life : ℤ) + 1) (y_end - 1)
        colLast := y_end + (life : ℤ) - 1
        val := fun _ _ => none }
    let m1 := if triangle then setInitial_Triangle m0 stats life
              else setInitial_Flat m0 stats life
    if y_start < y_end then
      match stats with
      | _ :: (y1, _) :: _ => reducerYears stats life m1 y1 (yearsMax stats + 1 - y1).toNat
      | _ => []
    else []

/-! ## Invariant predicates and auxiliary definitions -/

/-- No cell holds a negative surviving capacity (`NaN` cells count as 0). -/
def NonnegM (m : Mat) : Prop := ∀ r c, 0 ≤ (m.val r c).getD 0

/-- Rows that are not in the index hold no values at all. -/
def OffRows (m : Mat) : Prop := ∀ r, r ∉ m.rows → ∀ c, m.val r c = none

/-- Every set cell lies inside its vintage's survival window
`[vintage_year, vintage_year + life - 1]`. -/
def WindowInv (life : ℕ) (m : Mat) : Prop :=
  ∀ r c, (m.val r c).isSome → r ≤ c ∧ c ≤ r + (life : ℤ) - 1

/-- Surviving capacity at column `y` summed over a sublist `l` of rows. -/
def availAt (m : Mat) (y : ℤ) (l : List ℤ) : ℚ :=
  (l.map (fun r => (m.val r y).getD 0)).sum

/-- The common loop shape of `setInitial_Flat` and `setInitial_Triangle`:
`for y in range(start, y_start+1): mat.loc[y, y:min(y+life-1, mat.columns[-1])] = v(y)`. -/
def initFold (life : ℕ) (v : ℤ → ℚ) (ys : List ℤ) (m : Mat) : Mat :=
  ys.foldl (fun mm y => locSet mm y y (min (y + (life : ℤ) - 1) mm.colLast) (v y)) m

/-- The per-year value written by `setInitial_Triangle`:
`dict(zip(years, series))[y]` (0 standing for the impossible `KeyError`). -/
def triVal (y_start : ℤ) (c0 : ℚ) (life : ℕ) (y : ℤ) : ℚ :=
  let years : List ℤ := rangeInt (y_start - (life : ℤ) + 1) y_start
  let height_flat : ℚ := c0 / (life : ℚ)
  let decr : ℚ := 2 * height_flat / (life : ℚ)
  let height_tri : ℚ := 2 * height_flat - decr / 2
  let series : List ℚ :=
    ((List.range life).map (fun i : ℕ => height_tri - (i : ℚ) * decr)).reverse
  let dic : List (ℤ × ℚ) := years.zip series
  (((dic.find? (fun p => p.1 == y)).map Prod.snd).getD 0)

/-- The empty ledger the engine builds for one group:
`pd.DataFrame(columns=range(y_start-life+1, y_end+life), index=range(y_start-life+1, y_end))`. -/
def initMat (y0 y_end : ℤ) (life : ℕ) : Mat where
  rows := rangeInt (y0 - (life : ℤ) + 1) (y_end - 1)
  colLast := y_end + (life : ℤ) - 1
  val := fun _ _ => none

/-- Mode selection: `Triangle` for `Solar`/`Wind`/`Bioenergy`/`Geothermal`,
`Flat` otherwise. -/
def setInitialMode (tri : Bool) (m : Mat) (stats : List (ℤ × ℚ)) (life : ℕ) : Mat :=
  if tri then setInitial_Triangle m stats life else setInitial_Flat m stats life

/-- The value a pre-history vintage receives under either mode. -/
def modeVal (tri : Bool) (y0 : ℤ) (c0 : ℚ) (life : ℕ) : ℤ → ℚ :=
  if tri then triVal y0 c0 life else fun _ => c0 / (life : ℚ)

/-- The induction invariant of the `setHistorical` loop: the ledger is
well-formed, rows at or beyond the current year are untouched, and every
observed year already passed is exactly reconciled. -/
def WalkInv (stats : List (ℤ × ℚ)) (life : ℕ) (year : ℤ) (m : Mat) : Prop :=
  NonnegM m ∧ OffRows m ∧ m.rows.Nodup ∧ WindowInv life m ∧
    (∀ r c, year ≤ r → m.val r c = none) ∧
    (∀ p ∈ stats, p.1 < year → colSum m p.1 = p.2)

/-- A small concrete ledger for the C4 witness: two vintages (2000 built 10,
2001 built 7), lifetime 5. -/
def C4_example : Mat where
  rows := [2000, 2001]
  colLast := 2005
  val := fun r c =>
    if r = 2000 ∧ 2000 ≤ c ∧ c ≤ 2004 then some 10
    else if r = 2001 ∧ 2001 ≤ c ∧ c ≤ 2005 then some 7 else none

/-- A one-vintage ledger for the C3 witness: vintage 2000 built 10, life 5. -/
def C3_example : Mat where
  rows := [2000]
  colLast := 2004
  val := fun r c => if r = 2000 ∧ 2000 ≤ c ∧ c ≤ 2004 then some 10 else none

/-! ## Basic lemmas about `rangeInt` -/

theorem rangeInt_nil (lo hi : ℤ) (h : hi < lo) : rangeInt lo hi = [] := by
  unfold rangeInt
  have h0 : (hi + 1 - lo).toNat = 0 := by omega
  simp [h0]

theorem rangeInt_cons (lo hi : ℤ) (h : lo ≤ hi) :
    rangeInt lo hi = lo :: rangeInt (lo + 1) hi := by
  unfold rangeInt
  have h1 : (hi + 1 - lo).toNat = (hi + 1 - (lo + 1)).toNat + 1 := by omega
  rw [h1, List.range_succ_eq_map]
  simp only [List.map_cons, List.map_map, Nat.cast_zero, add_zero]
  refine congrArg₂ List.cons rfl ?_
  apply List.map_congr_left
  intro a _
  simp only [Function.comp_apply]
  push_cast
  ring

theorem mem_rangeInt {lo hi y : ℤ} : y ∈ rangeInt lo hi ↔ lo ≤ y ∧ y ≤ hi := by
  unfold rangeInt
  simp only [List.mem_map, List.mem_range]
  constructor
  · rintro ⟨n, hn, rfl⟩
    omega
  · intro hy
    exact ⟨(y - lo).toNat, by omega, by omega⟩

theorem rangeInt_sorted (lo hi : ℤ) : (rangeInt lo hi).Pairwise (· < ·) := by
  unfold rangeInt
  refine List.pairwise_map.mpr ?_
  have := List.pairwise_lt_range (hi + 1 - lo).toNat
  exact this.imp (by omega)

theorem rangeInt_nodup (lo hi : ℤ) : (rangeInt lo hi).Nodup :=
  (rangeInt_sorted lo hi).imp (fun h => by omega)

theorem rangeInt_length (lo hi : ℤ) : (rangeInt lo hi).length = (hi + 1 - lo).toNat := by
  unfold rangeInt
  simp

theorem rangeInt_head (lo hi : ℤ) (h : lo ≤ hi) :
    (rangeInt lo hi).head? = some lo := by
  rw [rangeInt_cons lo hi h]
  rfl

/-! ## Basic lemmas about `locSet` and `colSum` -/

theorem locSet_colLast (m : Mat) (v lo hi : ℤ) (q : ℚ) :
    (locSet m v lo hi q).colLast = m.colLast := rfl

theorem locSet_val (m : Mat) (v lo hi : ℤ) (q : ℚ) (r c : ℤ) :
    (locSet m v lo hi q).val r c =
      if r = v ∧ lo ≤ c ∧ c ≤ hi then some q else m.val r c := rfl

theorem locSet_val_of_ne (m : Mat) (v lo hi : ℤ) (q : ℚ) {r : ℤ} (h : r ≠ v) (c : ℤ) :
    (locSet m v lo hi q).val r c = m.val r c := by
  rw [locSet_val, if_neg]
  intro hcon
  exact h hcon.1

theorem locSet_val_outside (m : Mat) (v lo hi : ℤ) (q : ℚ) (r : ℤ) {c : ℤ}
    (h : c < lo ∨ hi < c) : (locSet m v lo hi q).val r c = m.val r c := by
  rw [locSet_val, if_neg]
  intro hcon
  rcases h with h | h <;> omega

theorem locSet_val_inside (m : Mat) (v : ℤ) {lo hi : ℤ} (q : ℚ) {c : ℤ}
    (h1 : lo ≤ c) (h2 : c ≤ hi) : (locSet m v lo hi q).val v c = some q := by
  rw [locSet_val, if_pos ⟨rfl, h1, h2⟩]

theorem locSet_rows_of_mem (m : Mat) {v : ℤ} (lo hi : ℤ) (q : ℚ) (h : v ∈ m.rows) :
    (locSet m v lo hi q).rows = m.rows := by
  simp [locSet, h]

theorem mem_locSet_rows (m : Mat) (v lo hi : ℤ) (q : ℚ) (r : ℤ) :
    r ∈ (locSet m v lo hi q).rows ↔ r ∈ m.rows ∨ r = v := by
  simp only [locSet]
  split
  · rename_i h
    constructor
    · exact Or.inl
    · rintro (hr | rfl)
      · exact hr
      · exact h
  · simp [List.mem_append]

theorem locSet_rows_sub (m : Mat) (v lo hi : ℤ) (q : ℚ) :
    m.rows ⊆ (locSet m v lo hi q).rows := by
  intro r hr
  rw [mem_locSet_rows]
  exact Or.inl hr

theorem locSet_nodup (m : Mat) (v lo hi : ℤ) (q : ℚ) (h : m.rows.Nodup) :
    (locSet m v lo hi q).rows.Nodup := by
  simp only [locSet]
  split
  · exact h
  · rename_i hv
    simpa [List.nodup_append] using ⟨h, hv⟩

theorem locSet_offRows (m : Mat) (v lo hi : ℤ) (q : ℚ) (h : OffRows m) :
    OffRows (locSet m v lo hi q) := by
  intro r hr c
  rw [mem_locSet_rows] at hr
  push_neg at hr
  rw [locSet_val_of_ne _ _ _ _ _ hr.2]
  exact h r hr.1 c

theorem locSet_nonneg (m : Mat) (v lo hi : ℤ) {q : ℚ} (h : NonnegM m) (hq : 0 ≤ q) :
    NonnegM (locSet m v lo hi q) := by
  intro r c
  rw [locSet_val]
  split
  · simpa using hq
  · exact h r c

theorem locSet_window {life : ℕ} (m : Mat) {v lo hi : ℤ} (q : ℚ) (h : WindowInv life m)
    (h1 : v ≤ lo) (h2 : hi ≤ v + (life : ℤ) - 1) : WindowInv life (locSet m v lo hi q) := by
  intro r c hrc
  rw [locSet_val] at hrc
  split at hrc
  · rename_i hcon
    obtain ⟨rfl, hc1, hc2⟩ := hcon
    omega
  · exact h r c hrc

theorem sum_map_update {l : List ℤ} (hnd : l.Nodup) {r0 : ℤ} (hr : r0 ∈ l)
    {f g : ℤ → ℚ} (h : ∀ a ∈ l, a ≠ r0 → f a = g a) :
    (l.map f).sum = (l.map g).sum + f r0 - g r0 := by
  induction l with
  | nil => cases hr
  | cons b l ih =>
    rcases List.mem_cons.mp hr with rfl | hr'
    · simp only [List.map_cons, List.sum_cons]
      have : (l.map f).sum = (l.map g).sum := by
        apply congrArg
        apply List.map_congr_left
        intro a ha
        exact h a (List.mem_cons_of_mem _ ha) (fun hc => (List.nodup_cons.mp hnd).1 (hc ▸ ha))
      rw [this]
      ring
    · have hb : b ≠ r0 := fun hc => (List.nodup_cons.mp hnd).1 (hc ▸ hr')
      simp only [List.map_cons, List.sum_cons]
      rw [h b (List.mem_cons_self b l) hb,
        ih (List.nodup_cons.mp hnd).2 hr' (fun a ha => h a (List.mem_cons_of_mem _ ha))]
      ring

theorem colSum_locSet_outside (m : Mat) (v lo hi : ℤ) (q : ℚ) {c : ℤ}
    (hc : c < lo ∨ hi < c) (hoff : OffRows m) :
    colSum (locSet m v lo hi q) c = colSum m c := by
  unfold colSum
  by_cases hv : v ∈ m.rows
  · rw [locSet_rows_of_mem m lo hi q hv]
    apply congrArg
    apply List.map_congr_left
    intro r _
    rw [locSet_val_outside m v lo hi q r hc]
  · have hrows : (locSet m v lo hi q).rows = m.rows ++ [v] := by simp [locSet, hv]
    rw [hrows, List.map_append, List.sum_append]
    have h1 : ∀ r ∈ m.rows, ((locSet m v lo hi q).val r c).getD 0 = (m.val r c).getD 0 := by
      intro r _
      rw [locSet_val_outside m v lo hi q r hc]
    rw [List.map_congr_left h1]
    have h2 : ((locSet m v lo hi q).val v c).getD 0 = 0 := by
      rw [locSet_val_outside m v lo hi q v hc, hoff v hv c]
      rfl
    simp [h2]

theorem colSum_locSet_inside (m : Mat) (v : ℤ) {lo hi : ℤ} (q : ℚ) {c : ℤ}
    (hc1 : lo ≤ c) (hc2 : c ≤ hi) (hnd : m.rows.Nodup) (hoff : OffRows m) :
    colSum (locSet m v lo hi q) c = colSum m c - (m.val v c).getD 0 + q := by
  unfold colSum
  by_cases hv : v ∈ m.rows
  · rw [locSet_rows_of_mem m lo hi q hv]
    rw [sum_map_update hnd hv
      (f := fun r => ((locSet m v lo hi q).val r c).getD 0)
      (g := fun r => (m.val r c).getD 0)
      (fun a _ ha => by
        show ((locSet m v lo hi q).val a c).getD 0 = (m.val a c).getD 0
        rw [locSet_val_of_ne _ _ _ _ _ ha])]
    rw [locSet_val_inside m v q hc1 hc2]
    simp only [Option.getD_some]
    ring
  · have hrows : (locSet m v lo hi q).rows = m.rows ++ [v] := by simp [locSet, hv]
    rw [hrows, List.map_append, List.sum_append]
    have h1 : ∀ r ∈ m.rows, ((locSet m v lo hi q).val r c).getD 0 = (m.val r c).getD 0 := by
      intro r hr
      rw [locSet_val_of_ne _ _ _ _ _ (fun hc => hv (by rw [← hc]; exact hr))]
    rw [List.map_congr_left h1, hoff v hv c]
    rw [show ([v].map (fun r => ((locSet m v lo hi q).val r c).getD 0)).sum
        = ((locSet m v lo hi q).val v c).getD 0 by simp]
    rw [locSet_val_inside m v q hc1 hc2]
    simp

/-! ## Lemmas about `reduceGo` / `reduceVintages` -/

theorem getD_pos_isSome {o : Option ℚ} (h : 0 < o.getD 0) : ∃ q, o = some q ∧ 0 < q := by
  cases o with
  | none => simp at h
  | some q => exact ⟨q, rfl, by simpa using h⟩

theorem availAt_cons (m : Mat) (y year : ℤ) (rest : List ℤ) :
    availAt m y (year :: rest) = (m.val year y).getD 0 + availAt m y rest := by
  simp [availAt]

theorem availAt_congr {m m' : Mat} {y : ℤ} {l : List ℤ}
    (h : ∀ r ∈ l, m'.val r y = m.val r y) : availAt m' y l = availAt m y l := by
  unfold availAt
  apply congrArg
  apply List.map_congr_left
  intro r hr
  rw [h r hr]

theorem availAt_nonneg {m : Mat} (h : NonnegM m) (y : ℤ) (l : List ℤ) :
    0 ≤ availAt m y l := by
  unfold availAt
  apply List.sum_nonneg
  intro q hq
  obtain ⟨r, _, rfl⟩ := List.mem_map.mp hq
  exact h r y

theorem reduceGo_rows (life : ℕ) (y_pres : ℤ) :
    ∀ (l : List ℤ) (a : ℚ) (m : Mat), (∀ r ∈ l, r ∈ m.rows) →
      (reduceGo life y_pres a m l).rows = m.rows := by
  intro l
  induction l with
  | nil => intro a m _; rfl
  | cons year rest ih =>
    intro a m hl
    have hyear : year ∈ m.rows := hl year (List.mem_cons_self _ _)
    simp only [reduceGo]
    split_ifs
    · rw [ih _ _ (fun r hr => by
        rw [locSet_rows_of_mem m _ _ _ hyear]
        exact hl r (List.mem_cons_of_mem _ hr))]
      exact locSet_rows_of_mem m _ _ _ hyear
    · exact locSet_rows_of_mem m _ _ _ hyear
    · exact ih _ _ (fun r hr => hl r (List.mem_cons_of_mem _ hr))

theorem reduceGo_val_low (life : ℕ) (y_pres : ℤ) {c : ℤ} (hc : c < y_pres) :
    ∀ (l : List ℤ) (a : ℚ) (m : Mat) (r : ℤ),
      (reduceGo life y_pres a m l).val r c = m.val r c := by
  intro l
  induction l with
  | nil => intro a m r; rfl
  | cons year rest ih =>
    intro a m r
    simp only [reduceGo]
    split_ifs
    · rw [ih, locSet_val_outside _ _ _ _ _ _ (Or.inl hc)]
    · rw [locSet_val_outside _ _ _ _ _ _ (Or.inl hc)]
    · exact ih _ _ _

theorem reduceGo_val_not_mem (life : ℕ) (y_pres : ℤ) :
    ∀ (l : List ℤ) (a : ℚ) (m : Mat) {r : ℤ}, r ∉ l → ∀ c,
      (reduceGo life y_pres a m l).val r c = m.val r c := by
  intro l
  induction l with
  | nil => intro a m r _ c; rfl
  | cons year rest ih =>
    intro a m r hr c
    have hry : r ≠ year := fun h => hr (h ▸ List.mem_cons_self _ _)
    have hrr : r ∉ rest := fun h => hr (List.mem_cons_of_mem _ h)
    simp only [reduceGo]
    split_ifs
    · rw [ih _ _ hrr, locSet_val_of_ne _ _ _ _ _ hry]
    · rw [locSet_val_of_ne _ _ _ _ _ hry]
    · exact ih _ _ hrr c

theorem reduceGo_val_none_row (life : ℕ) (y_pres : ℤ) :
    ∀ (l : List ℤ) (a : ℚ) (m : Mat) {r : ℤ}, (∀ c, m.val r c = none) → ∀ c,
      (reduceGo life y_pres a m l).val r c = none := by
  intro l
  induction l with
  | nil => intro a m r h c; exact h c
  | cons year rest ih =>
    intro a m r hr c
    simp only [reduceGo]
    split_ifs with h1 h2
    · have hry : r ≠ year := by
        intro h
        rw [← h, hr y_pres] at h1
        simp at h1
      exact ih _ _ (fun c' => by rw [locSet_val_of_ne _ _ _ _ _ hry, hr c']) c
    · have hry : r ≠ year := by
        intro h
        rw [← h, hr y_pres] at h1
        simp at h1
      rw [locSet_val_of_ne _ _ _ _ _ hry, hr c]
    · exact ih _ _ hr c

theorem reduceGo_nonneg (life : ℕ) (y_pres : ℤ) :
    ∀ (l : List ℤ) (a : ℚ) (m : Mat), NonnegM m → NonnegM (reduceGo life y_pres a m l) := by
  intro l
  induction l with
  | nil => intro a m h; exact h
  | cons year rest ih =>
    intro a m h
    simp only [reduceGo]
    split_ifs with h1 h2
    · exact ih _ _ (locSet_nonneg _ _ _ _ h le_rfl)
    · refine locSet_nonneg _ _ _ _ h ?_
      have := neg_abs_le a
      push_neg at h2
      linarith
    · exact ih _ _ h

theorem reduceGo_offRows (life : ℕ) (y_pres : ℤ) :
    ∀ (l : List ℤ) (a : ℚ) (m : Mat), OffRows m → OffRows (reduceGo life y_pres a m l) := by
  intro l
  induction l with
  | nil => intro a m h; exact h
  | cons year rest ih =>
    intro a m h
    simp only [reduceGo]
    split_ifs
    · exact ih _ _ (locSet_offRows _ _ _ _ _ h)
    · exact locSet_offRows _ _ _ _ _ h
    · exact ih _ _ h

theorem reduceGo_nodup (life : ℕ) (y_pres : ℤ) :
    ∀ (l : List ℤ) (a : ℚ) (m : Mat), m.rows.Nodup → (reduceGo life y_pres a m l).rows.Nodup := by
  intro l
  induction l with
  | nil => intro a m h; exact h
  | cons year rest ih =>
    intro a m h
    simp only [reduceGo]
    split_ifs
    · exact ih _ _ (locSet_nodup _ _ _ _ _ h)
    · exact locSet_nodup _ _ _ _ _ h
    · exact ih _ _ h

theorem reduceGo_window (life : ℕ) (y_pres : ℤ) :
    ∀ (l : List ℤ) (a : ℚ) (m : Mat), WindowInv life m →
      WindowInv life (reduceGo life y_pres a m l) := by
  intro l
  induction l with
  | nil => intro a m h; exact h
  | cons year rest ih =>
    intro a m h
    simp only [reduceGo]
    split_ifs with h1 h2
    · refine ih _ _ (locSet_window _ _ h ?_ le_rfl)
      obtain ⟨q, hq, _⟩ := getD_pos_isSome h1
      exact (h year y_pres (by rw [hq]; rfl)).1
    · refine locSet_window _ _ h ?_ le_rfl
      obtain ⟨q, hq, _⟩ := getD_pos_isSome h1
      exact (h year y_pres (by rw [hq]; rfl)).1
    · exact ih _ _ h

theorem reduceGo_colSum (life : ℕ) (y_pres : ℤ) :
    ∀ (l : List ℤ) (a : ℚ) (m : Mat), a < 0 → NonnegM m → OffRows m → m.rows.Nodup →
      WindowInv life m → l.Nodup → (∀ r ∈ l, r ∈ m.rows) → -a ≤ availAt m y_pres l →
      colSum (reduceGo life y_pres a m l) y_pres = colSum m y_pres + a := by
  intro l
  induction l with
  | nil =>
    intro a m ha _ _ _ _ _ _ hav
    simp only [availAt, List.map_nil, List.sum_nil] at hav
    linarith
  | cons year rest ih =>
    intro a m ha hnn hoff hnd hwin hlnd hsub hav
    have hyear : year ∈ m.rows := hsub year (List.mem_cons_self _ _)
    rw [availAt_cons] at hav
    simp only [reduceGo]
    split_ifs with h1 h2
    · -- full early retirement of this vintage, continue
      obtain ⟨q, hq, hqpos⟩ := getD_pos_isSome h1
      obtain ⟨hy1, hy2⟩ := hwin year y_pres (by rw [hq]; rfl)
      have hrows' : (locSet m year y_pres (year + (life : ℤ) - 1) 0).rows = m.rows :=
        locSet_rows_of_mem m _ _ _ hyear
      have hcs : colSum (locSet m year y_pres (year + (life : ℤ) - 1) 0) y_pres
          = colSum m y_pres - (m.val year y_pres).getD 0 + 0 :=
        colSum_locSet_inside m year 0 le_rfl hy2 hnd hoff
      have hrest : ∀ r ∈ rest, (locSet m year y_pres (year + (life : ℤ) - 1) 0).val r y_pres
          = m.val r y_pres := by
        intro r hr
        exact locSet_val_of_ne _ _ _ _ _ (fun hc : r = year => (List.nodup_cons.mp hlnd).1 (hc ▸ hr)) y_pres
      rw [ih (a + (m.val year y_pres).getD 0) _
        (by rw [abs_of_neg ha] at h2; linarith)
        (locSet_nonneg _ _ _ _ hnn le_rfl)
        (locSet_offRows _ _ _ _ _ hoff)
        (by rw [hrows']; exact hnd)
        (locSet_window _ _ hwin hy1 le_rfl)
        (List.nodup_cons.mp hlnd).2
        (fun r hr => by rw [hrows']; exact hsub r (List.mem_cons_of_mem _ hr))
        (by rw [availAt_congr hrest]; linarith), hcs]
      ring
    · -- the outstanding deficit fits into this vintage: reduce and break
      obtain ⟨q, hq, hqpos⟩ := getD_pos_isSome h1
      obtain ⟨hy1, hy2⟩ := hwin year y_pres (by rw [hq]; rfl)
      rw [colSum_locSet_inside m year _ le_rfl hy2 hnd hoff]
      ring
    · -- nothing left from this vintage at y_pres: skip
      have h0 : (m.val year y_pres).getD 0 = 0 := le_antisymm (by simpa using h1) (hnn year y_pres)
      exact ih a m ha hnn hoff hnd hwin (List.nodup_cons.mp hlnd).2
        (fun r hr => hsub r (List.mem_cons_of_mem _ hr)) (by rw [h0] at hav; linarith)

theorem locSet_change_eq {m : Mat} {v lo hi : ℤ} {q : ℚ} {r c : ℤ}
    (h : (locSet m v lo hi q).val r c ≠ m.val r c) : r = v := by
  by_contra hne
  exact h (locSet_val_of_ne _ _ _ _ _ hne c)

theorem reduceGo_order (life : ℕ) (y_pres : ℤ) :
    ∀ (l : List ℤ) (a : ℚ) (m : Mat),
      l.Pairwise (· < ·) → (∀ r ∈ l, r ∈ m.rows) → WindowInv life m →
      ∀ r r' : ℤ, (reduceGo life y_pres a m l).val r y_pres ≠ m.val r y_pres →
        r' ∈ l → r' < r → 0 < (m.val r' y_pres).getD 0 →
        ((reduceGo life y_pres a m l).val r' y_pres).getD 0 = 0 := by
  intro l
  induction l with
  | nil =>
    intro a m _ _ _ r r' hch _ _ _
    exact absurd rfl hch
  | cons year rest ih =>
    intro a m hpw hsub hwin r r' hch hr' hlt hpos
    have hpw' := List.pairwise_cons.mp hpw
    simp only [reduceGo] at hch ⊢
    split_ifs at hch ⊢ with h1 h2
    · -- this vintage fully retired, loop continues
      obtain ⟨q, hq, _⟩ := getD_pos_isSome h1
      obtain ⟨hy1, hy2⟩ := hwin year y_pres (by rw [hq]; rfl)
      set m' := locSet m year y_pres (year + (life : ℤ) - 1) 0 with hm'
      have hyrest : year ∉ rest := fun hc => lt_irrefl year (hpw'.1 year hc)
      rcases List.mem_cons.mp hr' with rfl | hr'rest
      · -- r' is the vintage just zeroed
        rw [reduceGo_val_not_mem life y_pres rest _ m' hyrest y_pres,
          locSet_val_inside m r' 0 le_rfl hy2]
        rfl
      · have hne : r' ≠ year := fun hc => lt_irrefl year (hc ▸ hpw'.1 r' hr'rest)
        by_cases hch' : (reduceGo life y_pres (a + (m.val year y_pres).getD 0) m' rest).val
            r y_pres = m'.val r y_pres
        · -- the change already happened at row `year`; then r = year, contradiction
          rw [hch'] at hch
          have : r = year := locSet_change_eq hch
          exact absurd (this ▸ hpw'.1 r' hr'rest) (by omega)
        · refine ih _ _ hpw'.2
            (fun x hx => locSet_rows_sub m _ _ _ _ (hsub x (List.mem_cons_of_mem _ hx)))
            (locSet_window _ _ hwin hy1 le_rfl) r r' hch' hr'rest hlt ?_
          rw [locSet_val_of_ne _ _ _ _ _ hne]
          exact hpos
    · -- loop breaks at `year`: nothing older than `year` can still change
      have : r = year := locSet_change_eq hch
      subst this
      rcases List.mem_cons.mp hr' with rfl | hr'rest
      · omega
      · exact absurd (hpw'.1 r' hr'rest) (by omega)
    · -- skipped vintage
      rcases List.mem_cons.mp hr' with rfl | hr'rest
      · exact absurd hpos h1
      · exact ih _ _ hpw'.2 (fun x hx => hsub x (List.mem_cons_of_mem _ hx)) hwin
          r r' hch hr'rest hlt hpos

theorem reduceGo_exhaust (life : ℕ) (y_pres : ℤ) :
    ∀ (l : List ℤ) (a : ℚ) (m : Mat), a < 0 → NonnegM m → OffRows m → m.rows.Nodup →
      WindowInv life m → l.Nodup → (∀ r ∈ l, r ∈ m.rows) → availAt m y_pres l < -a →
      colSum (reduceGo life y_pres a m l) y_pres = colSum m y_pres - availAt m y_pres l ∧
        reduceShortfallGo life y_pres a m l = a + availAt m y_pres l := by
  intro l
  induction l with
  | nil =>
    intro a m _ _ _ _ _ _ _ _
    simp [reduceGo, reduceShortfallGo, availAt]
  | cons year rest ih =>
    intro a m ha hnn hoff hnd hwin hlnd hsub hav
    have hyear : year ∈ m.rows := hsub year (List.mem_cons_self _ _)
    have havrest : 0 ≤ availAt m y_pres rest := availAt_nonneg hnn _ _
    rw [availAt_cons] at hav
    simp only [reduceGo, reduceShortfallGo]
    split_ifs with h1 h2
    · obtain ⟨q, hq, hqpos⟩ := getD_pos_isSome h1
      obtain ⟨hy1, hy2⟩ := hwin year y_pres (by rw [hq]; rfl)
      set v := (m.val year y_pres).getD 0 with hv
      have hrows' : (locSet m year y_pres (year + (life : ℤ) - 1) 0).rows = m.rows :=
        locSet_rows_of_mem m _ _ _ hyear
      have hrest : ∀ r ∈ rest, (locSet m year y_pres (year + (life : ℤ) - 1) 0).val r y_pres
          = m.val r y_pres := by
        intro r hr
        exact locSet_val_of_ne _ _ _ _ _ (fun hc : r = year => (List.nodup_cons.mp hlnd).1 (hc ▸ hr)) y_pres
      have hcs : colSum (locSet m year y_pres (year + (life : ℤ) - 1) 0) y_pres
          = colSum m y_pres - v + 0 :=
        colSum_locSet_inside m year 0 le_rfl hy2 hnd hoff
      obtain ⟨ih1, ih2⟩ := ih (a + v) _
        (by linarith)
        (locSet_nonneg _ _ _ _ hnn le_rfl)
        (locSet_offRows _ _ _ _ _ hoff)
        (by rw [hrows']; exact hnd)
        (locSet_window _ _ hwin hy1 le_rfl)
        (List.nodup_cons.mp hlnd).2
        (fun r hr => by rw [hrows']; exact hsub r (List.mem_cons_of_mem _ hr))
        (by rw [availAt_congr hrest]; linarith)
      rw [availAt_congr hrest] at ih1 ih2
      constructor
      · rw [ih1, hcs, availAt_cons, ← hv]; ring
      · rw [ih2, availAt_cons, ← hv]; ring
    · -- impossible: the whole remaining deficit exceeds everything available
      exfalso
      rw [abs_of_neg ha] at h2
      linarith
    · have h0 : (m.val year y_pres).getD 0 = 0 := le_antisymm (by simpa using h1) (hnn year y_pres)
      obtain ⟨ih1, ih2⟩ := ih a m ha hnn hoff hnd hwin (List.nodup_cons.mp hlnd).2
        (fun r hr => hsub r (List.mem_cons_of_mem _ hr)) (by rw [h0] at hav; linarith)
      rw [availAt_cons, h0]
      constructor
      · rw [ih1]; ring
      · rw [ih2]; ring

/-! ## The initial-distribution loop -/

theorem setInitial_Flat_eq (m : Mat) (y0 : ℤ) (c0 : ℚ) (rest : List (ℤ × ℚ)) (life : ℕ) :
    setInitial_Flat m ((y0, c0) :: rest) life
      = initFold life (fun _ => c0 / (life : ℚ))
          (rangeInt (m.rows.head?.getD (y0 - (life : ℤ) + 1)) y0) m := rfl

theorem setInitial_Triangle_eq (m : Mat) (y0 : ℤ) (c0 : ℚ) (rest : List (ℤ × ℚ)) (life : ℕ) :
    setInitial_Triangle m ((y0, c0) :: rest) life
      = initFold life (triVal y0 c0 life)
          (rangeInt (m.rows.head?.getD (y0 - (life : ℤ) + 1)) y0) m := rfl

theorem initFold_colLast (life : ℕ) (v : ℤ → ℚ) :
    ∀ (ys : List ℤ) (m : Mat), (initFold life v ys m).colLast = m.colLast := by
  intro ys
  induction ys with
  | nil => intro m; rfl
  | cons y ys ih => intro m; exact (ih _).trans rfl

theorem initFold_val_not_mem (life : ℕ) (v : ℤ → ℚ) :
    ∀ (ys : List ℤ) (m : Mat) {r : ℤ}, r ∉ ys → ∀ c,
      (initFold life v ys m).val r c = m.val r c := by
  intro ys
  induction ys with
  | nil => intro m r _ c; rfl
  | cons y ys ih =>
    intro m r hr c
    have hry : r ≠ y := fun h => hr (h ▸ List.mem_cons_self _ _)
    have hrr : r ∉ ys := fun h => hr (List.mem_cons_of_mem _ h)
    show (initFold life v ys _).val r c = m.val r c
    rw [ih _ hrr, locSet_val_of_ne _ _ _ _ _ hry]

theorem initFold_rows_mem (life : ℕ) (v : ℤ → ℚ) :
    ∀ (ys : List ℤ) (m : Mat) (r : ℤ),
      r ∈ (initFold life v ys m).rows ↔ r ∈ m.rows ∨ r ∈ ys := by
  intro ys
  induction ys with
  | nil => intro m r; simp [initFold]
  | cons y ys ih =>
    intro m r
    show r ∈ (initFold life v ys _).rows ↔ _
    rw [ih, mem_locSet_rows, List.mem_cons]
    tauto

theorem initFold_nodup (life : ℕ) (v : ℤ → ℚ) :
    ∀ (ys : List ℤ) (m : Mat), m.rows.Nodup → (initFold life v ys m).rows.Nodup := by
  intro ys
  induction ys with
  | nil => intro m h; exact h
  | cons y ys ih => intro m h; exact ih _ (locSet_nodup _ _ _ _ _ h)

theorem initFold_offRows (life : ℕ) (v : ℤ → ℚ) :
    ∀ (ys : List ℤ) (m : Mat), OffRows m → OffRows (initFold life v ys m) := by
  intro ys
  induction ys with
  | nil => intro m h; exact h
  | cons y ys ih => intro m h; exact ih _ (locSet_offRows _ _ _ _ _ h)

theorem initFold_nonneg (life : ℕ) {v : ℤ → ℚ} (hv : ∀ y, 0 ≤ v y) :
    ∀ (ys : List ℤ) (m : Mat), NonnegM m → NonnegM (initFold life v ys m) := by
  intro ys
  induction ys with
  | nil => intro m h; exact h
  | cons y ys ih => intro m h; exact ih _ (locSet_nonneg _ _ _ _ h (hv y))

theorem initFold_window (life : ℕ) (v : ℤ → ℚ) :
    ∀ (ys : List ℤ) (m : Mat), WindowInv life m → WindowInv life (initFold life v ys m) := by
  intro ys
  induction ys with
  | nil => intro m h; exact h
  | cons y ys ih =>
    intro m h
    exact ih _ (locSet_window _ _ h le_rfl (min_le_left _ _))

theorem initFold_val_mem (life : ℕ) (v : ℤ → ℚ) :
    ∀ (ys : List ℤ) (m : Mat), ys.Nodup → ∀ y ∈ ys, ∀ c,
      (initFold life v ys m).val y c =
        if y ≤ c ∧ c ≤ min (y + (life : ℤ) - 1) m.colLast then some (v y)
        else m.val y c := by
  intro ys
  induction ys with
  | nil => intro m _ y hy; cases hy
  | cons y' ys ih =>
    intro m hnd y hy c
    obtain ⟨hny, hnd'⟩ := List.nodup_cons.mp hnd
    rcases List.mem_cons.mp hy with rfl | hmem
    · show (initFold life v ys _).val y c = _
      rw [initFold_val_not_mem life v ys _ hny]
      by_cases hin : y ≤ c ∧ c ≤ min (y + (life : ℤ) - 1) m.colLast
      · rw [locSet_val_inside _ _ _ hin.1 hin.2, if_pos hin]
      · rw [locSet_val_outside _ _ _ _ _ _ (by omega), if_neg hin]
    · have hyy' : y ≠ y' := fun h => hny (h ▸ hmem)
      show (initFold life v ys _).val y c = _
      rw [ih _ hnd' y hmem c, locSet_val_of_ne _ _ _ _ _ hyy']
      rfl

theorem initFold_colSum (life : ℕ) (v : ℤ → ℚ) :
    ∀ (ys : List ℤ) (m : Mat), ys.Nodup → OffRows m → m.rows.Nodup →
      (∀ y ∈ ys, ∀ c, m.val y c = none) → ∀ C,
      colSum (initFold life v ys m) C = colSum m C +
        (ys.map (fun y =>
          if y ≤ C ∧ C ≤ min (y + (life : ℤ) - 1) m.colLast then v y else 0)).sum := by
  intro ys
  induction ys with
  | nil => intro m _ _ _ _ C; simp [initFold]
  | cons y' ys ih =>
    intro m hnd hoff hrnd hnone C
    obtain ⟨hny, hnd'⟩ := List.nodup_cons.mp hnd
    show colSum (initFold life v ys _) C = _
    rw [ih _ hnd' (locSet_offRows _ _ _ _ _ hoff) (locSet_nodup _ _ _ _ _ hrnd)
      (fun y hy c => by
        rw [locSet_val_of_ne _ _ _ _ _ (fun h : y = y' => hny (h ▸ hy))]
        exact hnone y (List.mem_cons_of_mem _ hy) c)]
    have hcl : (locSet m y' y' (min (y' + (life : ℤ) - 1) m.colLast) (v y')).colLast
        = m.colLast := rfl
    rw [hcl]
    by_cases hin : y' ≤ C ∧ C ≤ min (y' + (life : ℤ) - 1) m.colLast
    · rw [colSum_locSet_inside m y' (v y') hin.1 hin.2 hrnd hoff,
        hnone y' (List.mem_cons_self _ _) C]
      simp only [List.map_cons, List.sum_cons, if_pos hin, Option.getD_none]
      ring
    · rw [colSum_locSet_outside m y' _ _ (v y') (by omega) hoff]
      simp only [List.map_cons, List.sum_cons, if_neg hin]
      ring

/-! ## The initial distributions sum to the first statistic -/

theorem list_range_map_sum (f : ℕ → ℚ) :
    ∀ n : ℕ, ((List.range n).map f).sum = ∑ i in Finset.range n, f i := by
  intro n
  induction n with
  | zero => simp
  | succ k ih => rw [List.range_succ, Finset.sum_range_succ, List.map_append]; simp [ih]

theorem sum_range_cast_q :
    ∀ n : ℕ, (∑ i in Finset.range n, (i : ℚ)) = n * (n - 1) / 2 := by
  intro n
  induction n with
  | zero => simp
  | succ k ih =>
    rw [Finset.sum_range_succ, ih]
    push_cast
    ring

theorem head_getD_rangeInt (lo hi : ℤ) : (rangeInt lo hi).head?.getD lo = lo := by
  by_cases h : lo ≤ hi
  · rw [rangeInt_head lo hi h]; rfl
  · rw [rangeInt_nil lo hi (by omega)]; rfl

theorem find_zip_rangeInt :
    ∀ (s : List ℚ) (lo hi : ℤ), s.length = (hi + 1 - lo).toNat → ∀ {y : ℤ}, lo ≤ y → y ≤ hi →
      ((rangeInt lo hi).zip s).find? (fun p => p.1 == y)
        = some (y, s.getD (y - lo).toNat 0) := by
  intro s
  induction s with
  | nil =>
    intro lo hi hlen y h1 h2
    simp only [List.length_nil] at hlen
    omega
  | cons q s ih =>
    intro lo hi hlen y h1 h2
    rw [rangeInt_cons lo hi (by omega), List.zip_cons_cons, List.find?_cons]
    by_cases hy : y = lo
    · subst hy
      have : (y == y) = true := by simp
      rw [this]
      have : (y - y).toNat = 0 := by omega
      rw [this]
      rfl
    · have : (lo == y) = false := by simp [Ne.symm hy]
      rw [this]
      have hidx : (y - lo).toNat = (y - (lo + 1)).toNat + 1 := by omega
      rw [hidx, List.getD_cons_succ]
      exact ih (lo + 1) hi (by simp at hlen; omega) (by omega) h2

theorem series_getD (A d : ℚ) (L j : ℕ) (hj : j < L) :
    ((((List.range L).map (fun i : ℕ => A - (i : ℚ) * d)).reverse).getD j 0)
      = A - ((L - 1 - j : ℕ) : ℚ) * d := by
  have hlen : (((List.range L).map (fun i : ℕ => A - (i : ℚ) * d))).length = L := by simp
  have hjlen : j < (((List.range L).map (fun i : ℕ => A - (i : ℚ) * d))).reverse.length := by
    simpa using hj
  rw [List.getD_eq_getElem?_getD, List.getElem?_reverse (by simpa using hj)]
  rw [List.getElem?_map]
  rw [hlen]
  rw [List.getElem?_range (by omega)]
  simp

theorem triVal_eq (y0 : ℤ) (c0 : ℚ) (L : ℕ) {y : ℤ} (h1 : y0 - (L : ℤ) + 1 ≤ y)
    (h2 : y ≤ y0) :
    triVal y0 c0 L y
      = (2 * (c0 / (L : ℚ)) - (2 * (c0 / (L : ℚ)) / (L : ℚ)) / 2)
        - ((y0 - y : ℤ) : ℚ) * (2 * (c0 / (L : ℚ)) / (L : ℚ)) := by
  simp only [triVal]
  have hL1 : 1 ≤ L := by omega
  have hlen : (((List.range L).map
      (fun i : ℕ => (2 * (c0 / (L : ℚ)) - (2 * (c0 / (L : ℚ)) / (L : ℚ)) / 2)
        - (i : ℚ) * (2 * (c0 / (L : ℚ)) / (L : ℚ)))).reverse).length
      = (y0 + 1 - (y0 - (L : ℤ) + 1)).toNat := by
    simp only [List.length_reverse, List.length_map, List.length_range]
    omega
  rw [find_zip_rangeInt _ _ _ hlen h1 (by omega)]
  simp only [Option.map_some', Option.getD_some]
  rw [series_getD _ _ L _ (by omega)]
  have : ((L - 1 - (y - (y0 - (L : ℤ) + 1)).toNat : ℕ) : ℚ) = ((y0 - y : ℤ) : ℚ) := by
    have h3 : (y - (y0 - (L : ℤ) + 1)).toNat ≤ L - 1 := by omega
    have h4 : (L - 1 - (y - (y0 - (L : ℤ) + 1)).toNat : ℕ) = (y0 - y).toNat := by omega
    rw [h4]
    have h5 : (0 : ℤ) ≤ y0 - y := by omega
    have h6 : ((y0 - y).toNat : ℤ) = y0 - y := Int.toNat_of_nonneg h5
    exact_mod_cast congrArg (Int.cast : ℤ → ℚ) h6
  rw [this]

theorem triVal_nonneg (y0 : ℤ) {c0 : ℚ} (hc0 : 0 ≤ c0) (L : ℕ) (y : ℤ) :
    0 ≤ triVal y0 c0 L y := by
  simp only [triVal]
  set A : ℚ := 2 * (c0 / (L : ℚ)) - (2 * (c0 / (L : ℚ)) / (L : ℚ)) / 2 with hA
  set d : ℚ := 2 * (c0 / (L : ℚ)) / (L : ℚ) with hd
  cases hfind : (((rangeInt (y0 - (L : ℤ) + 1) y0).zip
      (((List.range L).map (fun i : ℕ => A - (i : ℚ) * d)).reverse)).find?
      (fun p => p.1 == y)) with
  | none => simp [hfind]
  | some p =>
    have hp := List.find?_some hfind
    have hmem := List.mem_of_find?_eq_some hfind
    have hsnd : p.2 ∈ ((List.range L).map (fun i : ℕ => A - (i : ℚ) * d)).reverse :=
      (List.of_mem_zip hmem).2
    rw [List.mem_reverse, List.mem_map] at hsnd
    obtain ⟨i, hi, hval⟩ := hsnd
    rw [List.mem_range] at hi
    have hL1 : 1 ≤ L := by omega
    have hLQ : (0 : ℚ) < (L : ℚ) := by exact_mod_cast hL1
    have hh : 0 ≤ c0 / (L : ℚ) := div_nonneg hc0 (le_of_lt hLQ)
    have hdnn : 0 ≤ d := by rw [hd]; positivity
    have hiL : (i : ℚ) ≤ (L : ℚ) - 1 := by
      have : (i : ℚ) + 1 ≤ (L : ℚ) := by exact_mod_cast hi
      linarith
    have hbase : A - ((L : ℚ) - 1) * d = (c0 / (L : ℚ)) / (L : ℚ) := by
      rw [hA, hd]
      field_simp
      ring
    have h1 : A - ((L : ℚ) - 1) * d ≤ A - (i : ℚ) * d := by nlinarith
    have h2 : 0 ≤ (c0 / (L : ℚ)) / (L : ℚ) := by positivity
    simp only [hfind, Option.map_some', Option.getD_some]
    rw [← hval]
    linarith [hbase ▸ h2]

theorem flat_sum (y0 : ℤ) (c0 : ℚ) (L : ℕ) (hL : 1 ≤ L) :
    ((rangeInt (y0 - (L : ℤ) + 1) y0).map (fun _ => c0 / (L : ℚ))).sum = c0 := by
  have hlen : ((y0 + 1 - (y0 - (L : ℤ) + 1)).toNat) = L := by omega
  have : ((rangeInt (y0 - (L : ℤ) + 1) y0).map (fun _ => c0 / (L : ℚ)))
      = List.replicate L (c0 / (L : ℚ)) := by
    rw [List.eq_replicate_iff]
    constructor
    · rw [List.length_map, rangeInt_length, hlen]
    · intro b hb
      rw [List.mem_map] at hb
      obtain ⟨_, _, rfl⟩ := hb
      rfl
  rw [this, List.sum_replicate, nsmul_eq_mul]
  have hLQ : ((L : ℚ)) ≠ 0 := by
    have h0 : (0 : ℚ) < (L : ℚ) := by exact_mod_cast (by omega : 0 < L)
    exact h0.ne'
  field_simp

theorem triVal_sum (y0 : ℤ) (c0 : ℚ) (L : ℕ) (hL : 1 ≤ L) :
    ((rangeInt (y0 - (L : ℤ) + 1) y0).map (triVal y0 c0 L)).sum = c0 := by
  set A : ℚ := 2 * (c0 / (L : ℚ)) - (2 * (c0 / (L : ℚ)) / (L : ℚ)) / 2 with hA
  set d : ℚ := 2 * (c0 / (L : ℚ)) / (L : ℚ) with hd
  have hcongr : ∀ y ∈ rangeInt (y0 - (L : ℤ) + 1) y0,
      triVal y0 c0 L y = A - ((y0 - y : ℤ) : ℚ) * d := by
    intro y hy
    obtain ⟨hy1, hy2⟩ := mem_rangeInt.mp hy
    rw [triVal_eq y0 c0 L hy1 hy2]
  rw [List.map_congr_left hcongr]
  unfold rangeInt
  rw [List.map_map]
  have hlen : ((y0 + 1 - (y0 - (L : ℤ) + 1)).toNat) = L := by omega
  rw [hlen, list_range_map_sum]
  have hterm : ∀ i ∈ Finset.range L,
      (A - ((y0 - (y0 - (L : ℤ) + 1 + (i : ℤ)) : ℤ) : ℚ) * d)
        = A - ((L : ℚ) - 1 - (i : ℚ)) * d := by
    intro i _
    have : (y0 - (y0 - (L : ℤ) + 1 + (i : ℤ)) : ℤ) = (L : ℤ) - 1 - (i : ℤ) := by omega
    rw [this]
    push_cast
    ring
  rw [Finset.sum_congr rfl (fun i hi => by
    show A - ((y0 - (y0 - (L : ℤ) + 1 + (i : ℤ)) : ℤ) : ℚ) * d = A - ((L : ℚ) - 1 - (i : ℚ)) * d
    exact hterm i hi)]
  rw [Finset.sum_sub_distrib, Finset.sum_const, Finset.card_range]
  have hsplit : (∑ i in Finset.range L, ((L : ℚ) - 1 - (i : ℚ)) * d)
      = (((L : ℚ) - 1) * L - L * (L - 1) / 2) * d := by
    rw [← Finset.sum_mul]
    congr 1
    rw [Finset.sum_sub_distrib, Finset.sum_const, Finset.card_range, sum_range_cast_q]
    ring
  rw [hsplit, hA, hd]
  have hLQ : ((L : ℚ)) ≠ 0 := by
    have h0 : (0 : ℚ) < (L : ℚ) := by exact_mod_cast (by omega : 0 < L)
    exact h0.ne'
  field_simp
  ring

/-! ## The initial ledger of one group and the two distribution modes -/

theorem buildMat_eq (y0 : ℤ) (c0 : ℚ) (rest : List (ℤ × ℚ)) (life : ℕ) (tri : Bool) :
    buildMat ((y0, c0) :: rest) life tri =
      (if y0 < (rest.getLastD (y0, c0)).1 then
        setHistorical
          (setInitialMode tri (initMat y0 (rest.getLastD (y0, c0)).1 life)
            ((y0, c0) :: rest) life)
          ((y0, c0) :: rest) life
      else
        setInitialMode tri (initMat y0 (rest.getLastD (y0, c0)).1 life)
          ((y0, c0) :: rest) life) := by
  cases tri <;> rfl

theorem setInitialMode_eq (tri : Bool) (y0 y_end : ℤ) (c0 : ℚ) (rest : List (ℤ × ℚ))
    (life : ℕ) :
    setInitialMode tri (initMat y0 y_end life) ((y0, c0) :: rest) life =
      initFold life (modeVal tri y0 c0 life) (rangeInt (y0 - (life : ℤ) + 1) y0)
        (initMat y0 y_end life) := by
  have hstart : (initMat y0 y_end life).rows.head?.getD (y0 - (life : ℤ) + 1)
      = y0 - (life : ℤ) + 1 := head_getD_rangeInt _ _
  cases tri
  · show setInitial_Flat (initMat y0 y_end life) ((y0, c0) :: rest) life
        = initFold life (fun _ => c0 / (life : ℚ)) (rangeInt (y0 - (life : ℤ) + 1) y0)
            (initMat y0 y_end life)
    rw [setInitial_Flat_eq, hstart]
  · show setInitial_Triangle (initMat y0 y_end life) ((y0, c0) :: rest) life
        = initFold life (triVal y0 c0 life) (rangeInt (y0 - (life : ℤ) + 1) y0)
            (initMat y0 y_end life)
    rw [setInitial_Triangle_eq, hstart]

theorem modeVal_nonneg (tri : Bool) (y0 : ℤ) {c0 : ℚ} (hc0 : 0 ≤ c0) (life : ℕ) (y : ℤ) :
    0 ≤ modeVal tri y0 c0 life y := by
  cases tri
  · exact div_nonneg hc0 (by positivity)
  · exact triVal_nonneg y0 hc0 life y

theorem modeVal_sum (tri : Bool) (y0 : ℤ) (c0 : ℚ) (life : ℕ) (hL : 1 ≤ life) :
    ((rangeInt (y0 - (life : ℤ) + 1) y0).map (modeVal tri y0 c0 life)).sum = c0 := by
  cases tri
  · exact flat_sum y0 c0 life hL
  · exact triVal_sum y0 c0 life hL

theorem initMat_offRows (y0 y_end : ℤ) (life : ℕ) : OffRows (initMat y0 y_end life) :=
  fun _ _ _ => rfl

theorem initMat_nonneg (y0 y_end : ℤ) (life : ℕ) : NonnegM (initMat y0 y_end life) :=
  fun _ _ => le_refl 0

theorem initMat_window (y0 y_end : ℤ) (life : ℕ) : WindowInv life (initMat y0 y_end life) :=
  fun _ _ h => by simp [initMat] at h

theorem initMat_colSum (y0 y_end : ℤ) (life : ℕ) (C : ℤ) :
    colSum (initMat y0 y_end life) C = 0 := by
  unfold colSum initMat
  simp

theorem setInitialMode_nonneg (tri : Bool) (y0 y_end : ℤ) {c0 : ℚ} (hc0 : 0 ≤ c0)
    (rest : List (ℤ × ℚ)) (life : ℕ) :
    NonnegM (setInitialMode tri (initMat y0 y_end life) ((y0, c0) :: rest) life) := by
  rw [setInitialMode_eq]
  exact initFold_nonneg life (modeVal_nonneg tri y0 hc0 life) _ _ (initMat_nonneg _ _ _)

theorem setInitialMode_offRows (tri : Bool) (y0 y_end : ℤ) (c0 : ℚ)
    (rest : List (ℤ × ℚ)) (life : ℕ) :
    OffRows (setInitialMode tri (initMat y0 y_end life) ((y0, c0) :: rest) life) := by
  rw [setInitialMode_eq]
  exact initFold_offRows _ _ _ _ (initMat_offRows _ _ _)

theorem setInitialMode_nodup (tri : Bool) (y0 y_end : ℤ) (c0 : ℚ)
    (rest : List (ℤ × ℚ)) (life : ℕ) :
    (setInitialMode tri (initMat y0 y_end life) ((y0, c0) :: rest) life).rows.Nodup := by
  rw [setInitialMode_eq]
  exact initFold_nodup _ _ _ _ (rangeInt_nodup _ _)

theorem setInitialMode_window (tri : Bool) (y0 y_end : ℤ) (c0 : ℚ)
    (rest : List (ℤ × ℚ)) (life : ℕ) :
    WindowInv life (setInitialMode tri (initMat y0 y_end life) ((y0, c0) :: rest) life) := by
  rw [setInitialMode_eq]
  exact initFold_window _ _ _ _ (initMat_window _ _ _)

theorem setInitialMode_val_high (tri : Bool) (y0 y_end : ℤ) (c0 : ℚ)
    (rest : List (ℤ × ℚ)) (life : ℕ) {r : ℤ} (hr : y0 < r) (c : ℤ) :
    (setInitialMode tri (initMat y0 y_end life) ((y0, c0) :: rest) life).val r c = none := by
  rw [setInitialMode_eq]
  rw [initFold_val_not_mem life _ _ _ (fun hmem => by
    have := mem_rangeInt.mp hmem
    omega)]
  rfl

theorem setInitialMode_colSum_y0 (tri : Bool) (y0 y_end : ℤ) (c0 : ℚ)
    (rest : List (ℤ × ℚ)) (life : ℕ) (hL : 1 ≤ life) (hy : y0 ≤ y_end) :
    colSum (setInitialMode tri (initMat y0 y_end life) ((y0, c0) :: rest) life) y0 = c0 := by
  rw [setInitialMode_eq]
  rw [initFold_colSum life _ _ _ (rangeInt_nodup _ _) (initMat_offRows _ _ _)
    (rangeInt_nodup _ _) (fun _ _ _ => rfl) y0]
  rw [initMat_colSum]
  have hcond : ∀ y ∈ rangeInt (y0 - (life : ℤ) + 1) y0,
      (if y ≤ y0 ∧ y0 ≤ min (y + (life : ℤ) - 1) (initMat y0 y_end life).colLast
        then modeVal tri y0 c0 life y else 0) = modeVal tri y0 c0 life y := by
    intro y hy'
    obtain ⟨hy1, hy2⟩ := mem_rangeInt.mp hy'
    rw [if_pos]
    refine ⟨hy2, ?_⟩
    show y0 ≤ min (y + (life : ℤ) - 1) (y_end + (life : ℤ) - 1)
    omega
  rw [List.map_congr_left hcond, modeVal_sum tri y0 c0 life hL]
  ring

/-! ## The forward walk -/

theorem statAt_of_mem :
    ∀ {stats : List (ℤ × ℚ)}, (stats.map Prod.fst).Pairwise (· < ·) →
      ∀ {p : ℤ × ℚ}, p ∈ stats → statAt stats p.1 = some p.2 := by
  intro stats
  induction stats with
  | nil => intro _ p hp; cases hp
  | cons q rest ih =>
    intro hsort p hp
    rw [List.map_cons, List.pairwise_cons] at hsort
    rcases List.mem_cons.mp hp with rfl | hmem
    · unfold statAt
      rw [List.find?_cons_of_pos _ (by simp)]
      rfl
    · have hlt : q.1 < p.1 := hsort.1 p.1 (List.mem_map.mpr ⟨p, hmem, rfl⟩)
      unfold statAt
      rw [List.find?_cons_of_neg _ (by simp; omega)]
      exact ih hsort.2 hmem

theorem foldl_max_bound :
    ∀ (ys : List ℤ) (a : ℤ), a ≤ ys.foldl max a ∧ ∀ x ∈ ys, x ≤ ys.foldl max a := by
  intro ys
  induction ys with
  | nil => intro a; exact ⟨le_rfl, fun x hx => absurd hx (List.not_mem_nil x)⟩
  | cons b ys ih =>
    intro a
    have h := ih (max a b)
    refine ⟨le_trans (le_max_left a b) h.1, ?_⟩
    intro x hx
    rcases List.mem_cons.mp hx with rfl | hmem
    · exact le_trans (le_max_right a x) h.1
    · exact h.2 x hmem

theorem yearsMax_ge {stats : List (ℤ × ℚ)} {p : ℤ × ℚ} (hp : p ∈ stats) :
    p.1 ≤ yearsMax stats := by
  unfold yearsMax
  cases stats with
  | nil => cases hp
  | cons q rest =>
    show p.1 ≤ (rest.map Prod.fst).foldl max q.1
    rcases List.mem_cons.mp hp with rfl | hmem
    · exact (foldl_max_bound _ _).1
    · exact (foldl_max_bound _ _).2 p.1 (List.mem_map.mpr ⟨p, hmem, rfl⟩)

theorem getLastD_mem {l : List (ℤ × ℚ)} (h : l ≠ []) (d : ℤ × ℚ) : l.getLastD d ∈ l := by
  rw [List.getLastD_eq_getLast?, List.getLast?_eq_getLast l h]
  exact List.getLast_mem h

theorem reduceGo_colSum_low (life : ℕ) (y_pres : ℤ) {C : ℤ} (hC : C < y_pres)
    (l : List ℤ) (a : ℚ) (m : Mat) (hl : ∀ r ∈ l, r ∈ m.rows) :
    colSum (reduceGo life y_pres a m l) C = colSum m C := by
  unfold colSum
  rw [reduceGo_rows life y_pres l a m hl]
  exact congrArg _ (List.map_congr_left fun r _ => by
    rw [reduceGo_val_low life y_pres hC l a m r])

theorem stepYear_val_lt (stats : List (ℤ × ℚ)) (life : ℕ) {year c : ℤ} (hc : c < year)
    (m : Mat) (r : ℤ) : (stepYear stats life m year).val r c = m.val r c := by
  unfold stepYear
  cases statAt stats year with
  | none => exact locSet_val_outside _ _ _ _ _ _ (Or.inl hc)
  | some cap =>
    simp only
    split_ifs
    · exact locSet_val_outside _ _ _ _ _ _ (Or.inl hc)
    · unfold reduceVintages
      rw [reduceGo_val_low life year hc]
      exact locSet_val_outside _ _ _ _ _ _ (Or.inl hc)

theorem stepYear_colSum_lt (stats : List (ℤ × ℚ)) (life : ℕ) {year C : ℤ} (hC : C < year)
    (m : Mat) (hoff : OffRows m) :
    colSum (stepYear stats life m year) C = colSum m C := by
  unfold stepYear
  cases statAt stats year with
  | none => exact colSum_locSet_outside _ _ _ _ _ (Or.inl hC) hoff
  | some cap =>
    simp only
    split_ifs
    · exact colSum_locSet_outside _ _ _ _ _ (Or.inl hC) hoff
    · unfold reduceVintages
      rw [reduceGo_colSum_low life year hC _ _ _ (fun r hr => hr)]
      exact colSum_locSet_outside _ _ _ _ _ (Or.inl hC) hoff

theorem stepYear_nonneg (stats : List (ℤ × ℚ)) (life : ℕ) (year : ℤ) (m : Mat)
    (hnn : NonnegM m) : NonnegM (stepYear stats life m year) := by
  unfold stepYear
  cases statAt stats year with
  | none => exact locSet_nonneg _ _ _ _ hnn le_rfl
  | some cap =>
    simp only
    split_ifs with h
    · exact locSet_nonneg _ _ _ _ hnn h
    · exact reduceGo_nonneg life year _ _ _ (locSet_nonneg _ _ _ _ hnn le_rfl)

theorem stepYear_offRows (stats : List (ℤ × ℚ)) (life : ℕ) (year : ℤ) (m : Mat)
    (hoff : OffRows m) : OffRows (stepYear stats life m year) := by
  unfold stepYear
  cases statAt stats year with
  | none => exact locSet_offRows _ _ _ _ _ hoff
  | some cap =>
    simp only
    split_ifs
    · exact locSet_offRows _ _ _ _ _ hoff
    · exact reduceGo_offRows life year _ _ _ (locSet_offRows _ _ _ _ _ hoff)

theorem stepYear_nodup (stats : List (ℤ × ℚ)) (life : ℕ) (year : ℤ) (m : Mat)
    (hnd : m.rows.Nodup) : (stepYear stats life m year).rows.Nodup := by
  unfold stepYear
  cases statAt stats year with
  | none => exact locSet_nodup _ _ _ _ _ hnd
  | some cap =>
    simp only
    split_ifs
    · exact locSet_nodup _ _ _ _ _ hnd
    · exact reduceGo_nodup life year _ _ _ (locSet_nodup _ _ _ _ _ hnd)

theorem stepYear_window (stats : List (ℤ × ℚ)) (life : ℕ) (year : ℤ) (m : Mat)
    (hwin : WindowInv life m) : WindowInv life (stepYear stats life m year) := by
  unfold stepYear
  cases statAt stats year with
  | none => exact locSet_window _ _ hwin le_rfl le_rfl
  | some cap =>
    simp only
    split_ifs
    · exact locSet_window _ _ hwin le_rfl le_rfl
    · exact reduceGo_window life year _ _ _ (locSet_window _ _ hwin le_rfl le_rfl)

theorem stepYear_val_none_high (stats : List (ℤ × ℚ)) (life : ℕ) (year : ℤ) (m : Mat)
    {r : ℤ} (hrow : ∀ c, m.val r c = none) (hne : r ≠ year) (c : ℤ) :
    (stepYear stats life m year).val r c = none := by
  unfold stepYear
  cases statAt stats year with
  | none => rw [locSet_val_of_ne _ _ _ _ _ hne]; exact hrow c
  | some cap =>
    simp only
    split_ifs
    · rw [locSet_val_of_ne _ _ _ _ _ hne]; exact hrow c
    · exact reduceGo_val_none_row life year _ _ _
        (fun c' => by rw [locSet_val_of_ne _ _ _ _ _ hne]; exact hrow c') c

theorem stepYear_reconcile (stats : List (ℤ × ℚ)) (life : ℕ) {year : ℤ} {cap : ℚ}
    (hstat : statAt stats year = some cap) (hcap : 0 ≤ cap) (hL : 1 ≤ life) (m : Mat)
    (hnn : NonnegM m) (hoff : OffRows m) (hnd : m.rows.Nodup) (hwin : WindowInv life m)
    (hrow : ∀ c, m.val year c = none) :
    colSum (stepYear stats life m year) year = cap := by
  unfold stepYear
  rw [hstat]
  simp only
  have hhi : year ≤ year + (life : ℤ) - 1 := by omega
  split_ifs with h
  · rw [colSum_locSet_inside m year _ le_rfl hhi hnd hoff, hrow year]
    simp
  · set m' := locSet m year year (year + (life : ℤ) - 1) 0 with hm'
    have hcs' : colSum m' year = colSum m year := by
      rw [hm', colSum_locSet_inside m year 0 le_rfl hhi hnd hoff, hrow year]
      simp
    have hrowsnd : m'.rows.Nodup := locSet_nodup _ _ _ _ _ hnd
    have havail : availAt m' year m'.rows = colSum m' year := rfl
    unfold reduceVintages
    rw [reduceGo_colSum life year m'.rows _ m'
      (by push_neg at h; exact h)
      (locSet_nonneg _ _ _ _ hnn le_rfl)
      (locSet_offRows _ _ _ _ _ hoff)
      hrowsnd
      (locSet_window _ _ hwin le_rfl le_rfl)
      hrowsnd
      (fun r hr => hr)
      (by rw [havail, hcs']; linarith), hcs']
    ring

theorem stepYear_walkInv (stats : List (ℤ × ℚ)) (life : ℕ) (hL : 1 ≤ life)
    (hsort : (stats.map Prod.fst).Pairwise (· < ·)) (hpos : ∀ p ∈ stats, 0 ≤ p.2)
    (year : ℤ) (m : Mat) (h : WalkInv stats life year m) :
    WalkInv stats life (year + 1) (stepYear stats life m year) := by
  obtain ⟨hnn, hoff, hnd, hwin, hhigh, hrec⟩ := h
  refine ⟨stepYear_nonneg stats life year m hnn, stepYear_offRows stats life year m hoff,
    stepYear_nodup stats life year m hnd, stepYear_window stats life year m hwin, ?_, ?_⟩
  · intro r c hr
    exact stepYear_val_none_high stats life year m
      (fun c' => hhigh r c' (by omega)) (by omega) c
  · intro p hp hlt
    by_cases hpy : p.1 < year
    · rw [stepYear_colSum_lt stats life hpy m hoff]
      exact hrec p hp hpy
    · have hpeq : p.1 = year := by omega
      subst hpeq
      exact stepYear_reconcile stats life (statAt_of_mem hsort hp) (hpos p hp) hL m
        hnn hoff hnd hwin (fun c => hhigh p.1 c le_rfl)

theorem walkYears_walkInv (stats : List (ℤ × ℚ)) (life : ℕ) (hL : 1 ≤ life)
    (hsort : (stats.map Prod.fst).Pairwise (· < ·)) (hpos : ∀ p ∈ stats, 0 ≤ p.2) :
    ∀ (n : ℕ) (year : ℤ) (m : Mat), WalkInv stats life year m →
      WalkInv stats life (year + n) (walkYears stats life m year n) := by
  intro n
  induction n with
  | zero => intro year m h; simpa using h
  | succ k ih =>
    intro year m h
    have := ih (year + 1) (stepYear stats life m year)
      (stepYear_walkInv stats life hL hsort hpos year m h)
    show WalkInv stats life (year + ((k : ℤ) + 1)) (walkYears stats life _ (year + 1) k)
    have harith : year + ((k : ℤ) + 1) = year + 1 + (k : ℤ) := by ring
    rw [harith]
    exact this

theorem walkYears_nonneg (stats : List (ℤ × ℚ)) (life : ℕ) :
    ∀ (n : ℕ) (year : ℤ) (m : Mat), NonnegM m →
      NonnegM (walkYears stats life m year n) := by
  intro n
  induction n with
  | zero => intro year m h; exact h
  | succ k ih => intro year m h; exact ih _ _ (stepYear_nonneg stats life year m h)

theorem walkYears_offRows (stats : List (ℤ × ℚ)) (life : ℕ) :
    ∀ (n : ℕ) (year : ℤ) (m : Mat), OffRows m →
      OffRows (walkYears stats life m year n) := by
  intro n
  induction n with
  | zero => intro year m h; exact h
  | succ k ih => intro year m h; exact ih _ _ (stepYear_offRows stats life year m h)

theorem walkYears_window (stats : List (ℤ × ℚ)) (life : ℕ) :
    ∀ (n : ℕ) (year : ℤ) (m : Mat), WindowInv life m →
      WindowInv life (walkYears stats life m year n) := by
  intro n
  induction n with
  | zero => intro year m h; exact h
  | succ k ih => intro year m h; exact ih _ _ (stepYear_window stats life year m h)

theorem buildMat_nonneg (stats : List (ℤ × ℚ)) (life : ℕ) (tri : Bool)
    (hpos : ∀ p ∈ stats, 0 ≤ p.2) : NonnegM (buildMat stats life tri) := by
  cases stats with
  | nil => intro r c; simp [buildMat]
  | cons hd rest =>
    obtain ⟨y0, c0⟩ := hd
    have hc0 : 0 ≤ c0 := hpos (y0, c0) (List.mem_cons_self _ _)
    rw [buildMat_eq]
    split_ifs with hg
    · cases rest with
      | nil => exact absurd hg (lt_irrefl y0)
      | cons q rest' =>
        obtain ⟨y1, c1⟩ := q
        show NonnegM (walkYears _ life _ y1 _)
        exact walkYears_nonneg _ life _ y1 _
          (setInitialMode_nonneg tri y0 _ hc0 _ life)
    · exact setInitialMode_nonneg tri y0 _ hc0 _ life

theorem buildMat_window (stats : List (ℤ × ℚ)) (life : ℕ) (tri : Bool) :
    WindowInv life (buildMat stats life tri) := by
  cases stats with
  | nil => intro r c h; simp [buildMat] at h
  | cons hd rest =>
    obtain ⟨y0, c0⟩ := hd
    rw [buildMat_eq]
    split_ifs with hg
    · cases rest with
      | nil => exact absurd hg (lt_irrefl y0)
      | cons q rest' =>
        obtain ⟨y1, c1⟩ := q
        show WindowInv life (walkYears _ life _ y1 _)
        exact walkYears_window _ life _ y1 _ (setInitialMode_window tri y0 _ _ _ life)
    · exact setInitialMode_window tri y0 _ _ _ life

theorem buildMat_offRows (stats : List (ℤ × ℚ)) (life : ℕ) (tri : Bool) :
    OffRows (buildMat stats life tri) := by
  cases stats with
  | nil => intro r _ c; rfl
  | cons hd rest =>
    obtain ⟨y0, c0⟩ := hd
    rw [buildMat_eq]
    split_ifs with hg
    · cases rest with
      | nil => exact absurd hg (lt_irrefl y0)
      | cons q rest' =>
        obtain ⟨y1, c1⟩ := q
        show OffRows (walkYears _ life _ y1 _)
        exact walkYears_offRows _ life _ y1 _ (setInitialMode_offRows tri y0 _ _ _ life)
    · exact setInitialMode_offRows tri y0 _ _ _ life

/-- C1 — **Reconciliation invariant** (confirmed, exactly in ℚ): for every
(region, technology) group series with strictly increasing observed years,
non-negative observed capacities and a positive lifetime, after the
decomposition run the sum of surviving capacity across all vintages at every
observed calendar year equals the observed cumulative capacity at that year. -/
theorem C1_reconciliation (stats : List (ℤ × ℚ)) (life : ℕ) (tri : Bool)
    (hL : 1 ≤ life) (hsort : (stats.map Prod.fst).Pairwise (· < ·))
    (hpos : ∀ p ∈ stats, 0 ≤ p.2) :
    ∀ p ∈ stats, colSum (buildMat stats life tri) p.1 = p.2 := by
  cases stats with
  | nil => intro p hp; cases hp
  | cons hd rest =>
    obtain ⟨y0, c0⟩ := hd
    intro p hp
    rw [buildMat_eq]
    cases rest with
    | nil =>
      have hend : (([] : List (ℤ × ℚ)).getLastD (y0, c0)).1 = y0 := rfl
      rw [hend, if_neg (lt_irrefl y0)]
      rcases List.mem_cons.mp hp with rfl | hmem
      · exact setInitialMode_colSum_y0 tri y0 y0 c0 [] life hL le_rfl
      · cases hmem
    | cons q rest' =>
      obtain ⟨y1, c1⟩ := q
      have hsort' := hsort
      rw [List.map_cons, List.pairwise_cons] at hsort'
      have hy01 : y0 < y1 := hsort'.1 y1 (by simp)
      have hend_mem : ((y1, c1) :: rest').getLastD (y0, c0) ∈ (y1, c1) :: rest' :=
        getLastD_mem (List.cons_ne_nil _ _) _
      have hy0end : y0 < (((y1, c1) :: rest').getLastD (y0, c0)).1 :=
        hsort'.1 _ (List.mem_map.mpr ⟨_, hend_mem, rfl⟩)
      rw [if_pos hy0end]
      have hwalk0 : WalkInv ((y0, c0) :: (y1, c1) :: rest') life y1
          (setInitialMode tri (initMat y0 (((y1, c1) :: rest').getLastD (y0, c0)).1 life)
            ((y0, c0) :: (y1, c1) :: rest') life) := by
        refine ⟨?_, ?_, ?_, ?_, ?_, ?_⟩
        · exact setInitialMode_nonneg tri y0 _
            (hpos (y0, c0) (List.mem_cons_self _ _)) _ life
        · exact setInitialMode_offRows tri y0 _ _ _ life
        · exact setInitialMode_nodup tri y0 _ _ _ life
        · exact setInitialMode_window tri y0 _ _ _ life
        · intro r c hr
          exact setInitialMode_val_high tri y0 _ c0 _ life (by omega) c
        · intro p' hp' hplt
          have hp'eq : p' = (y0, c0) := by
            rcases List.mem_cons.mp hp' with h | h
            · exact h
            · exfalso
              rcases List.mem_cons.mp h with rfl | h2
              · omega
              · have hsort'' := hsort'.2
                rw [List.map_cons, List.pairwise_cons] at hsort''
                have : y1 < p'.1 := hsort''.1 p'.1 (List.mem_map.mpr ⟨p', h2, rfl⟩)
                omega
          subst hp'eq
          exact setInitialMode_colSum_y0 tri y0 _ c0 _ life hL (le_of_lt hy0end)
      have hy1max : y1 ≤ yearsMax ((y0, c0) :: (y1, c1) :: rest') := by
        have : (((y1, c1) : ℤ × ℚ)) ∈ ((y0, c0) :: (y1, c1) :: rest') := by simp
        exact yearsMax_ge this
      have hfinal := walkYears_walkInv ((y0, c0) :: (y1, c1) :: rest') life hL hsort hpos
        (yearsMax ((y0, c0) :: (y1, c1) :: rest') + 1 - y1).toNat y1 _ hwalk0
      have harith : y1 + ((yearsMax ((y0, c0) :: (y1, c1) :: rest') + 1 - y1).toNat : ℤ)
          = yearsMax ((y0, c0) :: (y1, c1) :: rest') + 1 := by omega
      rw [harith] at hfinal
      have hpmax := yearsMax_ge hp
      exact hfinal.2.2.2.2.2 p hp (by omega)

/-- Witness for C1 at the growth scenario `{2000: 100, 2001: 120}` with
`life = 10`, flat mode. -/
theorem C1_reconciliation_witness :
    (1 ≤ 10 ∧ ([((2000 : ℤ), (100 : ℚ)), (2001, 120)].map Prod.fst).Pairwise (· < ·) ∧
      (∀ p ∈ [((2000 : ℤ), (100 : ℚ)), (2001, 120)], 0 ≤ p.2)) ∧
    colSum (buildMat [((2000 : ℤ), (100 : ℚ)), (2001, 120)] 10 false) 2001 = 120 := by
  have hsort : ([((2000 : ℤ), (100 : ℚ)), (2001, 120)].map Prod.fst).Pairwise (· < ·) := by
    simp
  have hpos : ∀ p ∈ [((2000 : ℤ), (100 : ℚ)), (2001, 120)], 0 ≤ p.2 := by
    intro p hp
    rcases List.mem_cons.mp hp with rfl | hp'
    · norm_num
    · rcases List.mem_cons.mp hp' with rfl | hp''
      · norm_num
      · cases hp''
  refine ⟨⟨by norm_num, hsort, hpos⟩, ?_⟩
  exact C1_reconciliation [((2000 : ℤ), (100 : ℚ)), (2001, 120)] 10 false
    (by norm_num) hsort hpos ((2001 : ℤ), (120 : ℚ)) (by simp)

/-! ## C4 — the VintageReducer removes exactly the deficit, oldest first -/

/-- C4 — **VintageReducer exactness and oldest-first order** (confirmed):
whenever `reduceVintages` is called with a deficit `Δ = -addition > 0` at year
`y` on a well-formed ledger whose rows are in ascending vintage order and
whose total surviving capacity at `y` is at least `Δ`, the survivor sum at
`y` drops by exactly `Δ`, and a vintage's value at `y` is only changed after
every older vintage with positive surviving capacity at `y` has been zeroed. -/
theorem C4_reduceVintages (m : Mat) (life : ℕ) (a : ℚ) (y : ℤ)
    (hnn : NonnegM m) (hoff : OffRows m) (hwin : WindowInv life m)
    (hsort : m.rows.Pairwise (· < ·))
    (ha : a < 0) (havail : -a ≤ colSum m y) :
    colSum (reduceVintages a m life y) y = colSum m y + a ∧
    (∀ r r' : ℤ, (reduceVintages a m life y).val r y ≠ m.val r y →
      r' ∈ m.rows → r' < r → 0 < (m.val r' y).getD 0 →
      ((reduceVintages a m life y).val r' y).getD 0 = 0) := by
  have hnd : m.rows.Nodup := hsort.imp ne_of_lt
  constructor
  · exact reduceGo_colSum life y m.rows a m ha hnn hoff hnd hwin hnd
      (fun r hr => hr) havail
  · intro r r' hch hr' hlt hpos
    exact reduceGo_order life y m.rows a m hsort (fun x hx => hx) hwin r r' hch hr' hlt hpos

/-- Witness for C4: deficit 12 at year 2002 against 17 of surviving capacity. -/
theorem C4_reduceVintages_witness :
    ((-12 : ℚ) < 0 ∧ -(-12 : ℚ) ≤ colSum C4_example 2002) ∧
    colSum (reduceVintages (-12) C4_example 5 2002) 2002 = colSum C4_example 2002 + (-12) := by
  have hnn : NonnegM C4_example := by
    intro r c
    show 0 ≤ (C4_example.val r c).getD 0
    unfold C4_example
    simp only
    split_ifs <;> norm_num
  have hoff : OffRows C4_example := by
    intro r hr c
    show C4_example.val r c = none
    simp only [C4_example, List.mem_cons, List.not_mem_nil] at hr
    push_neg at hr
    unfold C4_example
    simp only
    split_ifs with h1 h2
    · exact absurd h1.1 hr.1
    · exact absurd h2.1 hr.2.1
    · rfl
  have hwin : WindowInv 5 C4_example := by
    intro r c h
    show r ≤ c ∧ c ≤ r + (5 : ℤ) - 1
    unfold C4_example at h
    simp only at h
    split_ifs at h with h1 h2
    · omega
    · omega
    · simp at h
  have hsort : C4_example.rows.Pairwise (· < ·) := by
    show ([2000, 2001] : List ℤ).Pairwise (· < ·)
    decide
  have hcol : colSum C4_example 2002 = 17 := by
    show colSum C4_example 2002 = 17
    simp [colSum, C4_example]
    norm_num
  have havail : -(-12 : ℚ) ≤ colSum C4_example 2002 := by rw [hcol]; norm_num
  exact ⟨⟨by norm_num, havail⟩,
    (C4_reduceVintages C4_example 5 (-12) 2002 hnn hoff hwin hsort (by norm_num) havail).1⟩

/-! ## C9 — non-negativity throughout a run -/

/-- C9 — **Non-negativity** (confirmed): with non-negative observed
capacities, the ledger never holds a negative value: after the initial
distribution (either mode, from any non-negative ledger), after every forward
step, after every `reduceVintages` call (whether or not it absorbs its whole
deficit), and in the final ledger of a whole run. -/
theorem C9_nonneg (stats : List (ℤ × ℚ)) (life : ℕ) (tri : Bool)
    (hpos : ∀ p ∈ stats, 0 ≤ p.2) :
    (∀ m : Mat, NonnegM m → NonnegM (setInitial_Flat m stats life)) ∧
    (∀ m : Mat, NonnegM m → NonnegM (setInitial_Triangle m stats life)) ∧
    (∀ (m : Mat) (year : ℤ), NonnegM m → NonnegM (stepYear stats life m year)) ∧
    (∀ (a : ℚ) (m : Mat) (y : ℤ), NonnegM m → NonnegM (reduceVintages a m life y)) ∧
    NonnegM (buildMat stats life tri) := by
  refine ⟨?_, ?_, ?_, ?_, ?_⟩
  · intro m hm
    cases stats with
    | nil => exact hm
    | cons hd rest =>
      obtain ⟨y0, c0⟩ := hd
      rw [setInitial_Flat_eq]
      exact initFold_nonneg life
        (fun _ => div_nonneg (hpos (y0, c0) (List.mem_cons_self _ _)) (by positivity))
        _ _ hm
  · intro m hm
    cases stats with
    | nil => exact hm
    | cons hd rest =>
      obtain ⟨y0, c0⟩ := hd
      rw [setInitial_Triangle_eq]
      exact initFold_nonneg life
        (triVal_nonneg y0 (hpos (y0, c0) (List.mem_cons_self _ _)) life)
        _ _ hm
  · intro m year hm
    exact stepYear_nonneg stats life year m hm
  · intro a m y hm
    exact reduceGo_nonneg life y m.rows a m hm
  · exact buildMat_nonneg stats life tri hpos

/-- Witness for C9 at the growth scenario, inspecting the 1995 vintage cell. -/
theorem C9_nonneg_witness :
    (∀ p ∈ [((2000 : ℤ), (100 : ℚ)), (2001, 120)], 0 ≤ p.2) ∧
    0 ≤ ((buildMat [((2000 : ℤ), (100 : ℚ)), (2001, 120)] 10 false).val 1995 1995).getD 0 := by
  have hpos : ∀ p ∈ [((2000 : ℤ), (100 : ℚ)), (2001, 120)], 0 ≤ p.2 := by
    intro p hp
    rcases List.mem_cons.mp hp with rfl | hp'
    · norm_num
    · rcases List.mem_cons.mp hp' with rfl | hp''
      · norm_num
      · cases hp''
  exact ⟨hpos,
    (C9_nonneg [((2000 : ℤ), (100 : ℚ)), (2001, 120)] 10 false hpos).2.2.2.2 1995 1995⟩

/-! ## C3 — an over-large deficit is silently dropped, no error is surfaced -/

/-- C3 amended — when `reduceVintages` is invoked with a deficit larger than
the total surviving capacity at `y`, the loop exhausts all vintages, returns
normally with every surviving value at `y` zeroed, and the unabsorbed part of
the deficit is silently dropped (the final value of the loop variable
`addition` is still negative); no error of any kind is raised. -/
theorem C3_silent_exhaustion (m : Mat) (life : ℕ) (a : ℚ) (y : ℤ)
    (hnn : NonnegM m) (hoff : OffRows m) (hwin : WindowInv life m) (hnd : m.rows.Nodup)
    (ha : a < 0) (hex : colSum m y < -a) :
    colSum (reduceVintages a m life y) y = 0 ∧
    reduceShortfall a m life y = a + colSum m y := by
  have hcs : availAt m y m.rows = colSum m y := rfl
  have h := reduceGo_exhaust life y m.rows a m ha hnn hoff hnd hwin hnd
    (fun r hr => hr) (by rw [hcs]; exact hex)
  refine ⟨?_, ?_⟩
  · rw [show reduceVintages a m life y = reduceGo life y a m m.rows from rfl, h.1, hcs]
    ring
  · rw [show reduceShortfall a m life y = reduceShortfallGo life y a m m.rows from rfl,
      h.2, hcs]

/-- Witness for C3's amended statement: deficit 25 against 10 available at
2002 — the run returns with everything zeroed and 15 of deficit dropped. -/
theorem C3_silent_exhaustion_witness :
    ((-25 : ℚ) < 0 ∧ colSum C3_example 2002 < -(-25 : ℚ)) ∧
    colSum (reduceVintages (-25) C3_example 5 2002) 2002 = 0 := by
  have hnn : NonnegM C3_example := by
    intro r c
    show 0 ≤ (C3_example.val r c).getD 0
    unfold C3_example
    simp only
    split_ifs <;> norm_num
  have hoff : OffRows C3_example := by
    intro r hr c
    show C3_example.val r c = none
    simp only [C3_example, List.mem_cons, List.not_mem_nil] at hr
    push_neg at hr
    unfold C3_example
    simp only
    split_ifs with h1
    · exact absurd h1.1 hr.1
    · rfl
  have hwin : WindowInv 5 C3_example := by
    intro r c h
    show r ≤ c ∧ c ≤ r + (5 : ℤ) - 1
    unfold C3_example at h
    simp only at h
    split_ifs at h with h1
    · omega
    · simp at h
  have hnd : C3_example.rows.Nodup := by
    show ([2000] : List ℤ).Nodup
    decide
  have hcol : colSum C3_example 2002 = 10 := by
    simp [colSum, C3_example]
  have hex : colSum C3_example 2002 < -(-25 : ℚ) := by rw [hcol]; norm_num
  exact ⟨⟨by norm_num, hex⟩,
    (C3_silent_exhaustion C3_example 5 (-25) 2002 hnn hoff hwin hnd (by norm_num) hex).1⟩

/-! ## C10 — the emitted rows are the surviving capacities at base_year -/

theorem output_sum_bound (g : ℤ → ℚ) (hg : ∀ v, 0 ≤ g v) :
    ∀ l : List ℤ,
      0 ≤ (l.map g).sum
          - ((((l.map (fun v => (v, g v))).filter (fun p => decide (0 < p.2))).filter
              (fun p => ! isclose0 p.2)).map Prod.snd).sum ∧
      (l.map g).sum
          - ((((l.map (fun v => (v, g v))).filter (fun p => decide (0 < p.2))).filter
              (fun p => ! isclose0 p.2)).map Prod.snd).sum
        ≤ (l.length : ℚ) * (1 / 100000000) := by
  intro l
  induction l with
  | nil => simp
  | cons v l ih =>
    have hεpos : (0 : ℚ) ≤ 1 / 100000000 := by norm_num
    simp only [List.map_cons, List.sum_cons, List.filter_cons, List.length_cons]
    by_cases h1 : 0 < g v
    · rw [if_pos (by simpa using h1)]
      by_cases h2 : isclose0 (g v) = true
      · -- dropped by the near-zero filter; its value is at most the tolerance
        have hgv : g v ≤ 1 / 100000000 := by
          have := of_decide_eq_true h2
          calc g v ≤ |g v| := le_abs_self _
          _ ≤ 1 / 100000000 := this
        rw [List.filter_cons, if_neg (by simp [h2])]
        constructor
        · have := ih.1
          linarith
        · have := ih.2
          push_cast
          linarith
      · -- kept
        rw [List.filter_cons, if_pos (by simp [h2])]
        simp only [List.map_cons, List.sum_cons]
        constructor
        · have := ih.1
          linarith
        · have := ih.2
          push_cast
          linarith
    · -- dropped by the positivity filter; its value is exactly 0
      have hgv : g v = 0 := le_antisymm (by simpa using h1) (hg v)
      rw [if_neg (by simpa using h1)]
      constructor
      · have := ih.1
        linarith
      · have := ih.2
        push_cast
        linarith

/-- C10 — **Output rows are surviving capacities at base_year** (confirmed):
each emitted row's capacity is exactly the ledger's surviving capacity of
that vintage at `base_year` (and exceeds the `np.isclose` tolerance `1e-8`);
every set ledger cell lies inside its vintage's survival window, so vintages
whose window does not contain `base_year` (and zero / near-zero survivors)
are omitted; and the group's output capacities sum to the ledger's survivor
sum at `base_year` up to the near-zero filtering tolerance. -/
theorem C10_outputRows (stats : List (ℤ × ℚ)) (life : ℕ) (tri : Bool) (B : ℤ)
    (hpos : ∀ p ∈ stats, 0 ≤ p.2) :
    (∀ p ∈ outputRows stats life tri B,
        (buildMat stats life tri).val p.1 B = some p.2 ∧ 1 / 100000000 < p.2) ∧
    (∀ v c : ℤ, ((buildMat stats life tri).val v c).isSome →
        v ≤ c ∧ c ≤ v + (life : ℤ) - 1) ∧
    0 ≤ colSum (buildMat stats life tri) B
        - ((outputRows stats life tri B).map Prod.snd).sum ∧
    colSum (buildMat stats life tri) B
        - ((outputRows stats life tri B).map Prod.snd).sum
      ≤ ((buildMat stats life tri).rows.length : ℚ) * (1 / 100000000) := by
  have hbound := output_sum_bound (fun v => ((buildMat stats life tri).val v B).getD 0)
    (fun v => buildMat_nonneg stats life tri hpos v B) (buildMat stats life tri).rows
  refine ⟨?_, fun v c h => buildMat_window stats life tri v c h, hbound.1, hbound.2⟩
  intro p hp
  simp only [outputRows] at hp
  rw [List.mem_filter] at hp
  obtain ⟨hp1, hp2⟩ := hp
  rw [List.mem_filter] at hp1
  obtain ⟨hpmap, hppos⟩ := hp1
  rw [List.mem_map] at hpmap
  obtain ⟨v, _, rfl⟩ := hpmap
  have hpos' : 0 < ((buildMat stats life tri).val v B).getD 0 := of_decide_eq_true hppos
  have hni : ¬ (|((buildMat stats life tri).val v B).getD 0| ≤ 1 / 100000000) := by
    have := hp2
    simp only [isclose0, Bool.not_eq_true'] at this
    simpa using of_decide_eq_false this
  constructor
  · show (buildMat stats life tri).val v B = some (((buildMat stats life tri).val v B).getD 0)
    cases hval : (buildMat stats life tri).val v B with
    | none => rw [hval] at hpos'; simp at hpos'
    | some q => simp
  · show 1 / 100000000 < ((buildMat stats life tri).val v B).getD 0
    rw [abs_of_pos hpos'] at hni
    linarith [not_le.mp hni]

/-- Witness for C10 at the growth scenario with base_year 2005. -/
theorem C10_outputRows_witness :
    (∀ p ∈ [((2000 : ℤ), (100 : ℚ)), (2001, 120)], 0 ≤ p.2) ∧
    0 ≤ colSum (buildMat [((2000 : ℤ), (100 : ℚ)), (2001, 120)] 10 false) 2005
        - ((outputRows [((2000 : ℤ), (100 : ℚ)), (2001, 120)] 10 false 2005).map
            Prod.snd).sum := by
  have hpos : ∀ p ∈ [((2000 : ℤ), (100 : ℚ)), (2001, 120)], 0 ≤ p.2 := by
    intro p hp
    rcases List.mem_cons.mp hp with rfl | hp'
    · norm_num
    · rcases List.mem_cons.mp hp' with rfl | hp''
      · norm_num
      · cases hp''
  exact ⟨hpos,
    (C10_outputRows [((2000 : ℤ), (100 : ℚ)), (2001, 120)] 10 false 2005 hpos).2.2.1⟩

/-! ## Concrete scenario claims -/

set_option maxHeartbeats 4000000 in
/-- C2 counterexample — in the growth scenario `{2000: 100, 2001: 120}` with
`life = 10` the vintage created at 2001 is 30, not 20: the oldest pre-history
vintage (1991, window 1991–2000) has already expired at 2001, so the survivor
sum the step sees is 90, not 100. -/
theorem C2_counterexample :
    ¬ ((buildMat [((2000 : ℤ), (100 : ℚ)), (2001, 120)] 10 false).val 2001 2001
        = some 20) := by
  have h : (buildMat [((2000 : ℤ), (100 : ℚ)), (2001, 120)] 10 false).val 2001 2001
      = some 30 := by
    simp [buildMat, setInitial_Flat, setHistorical, walkYears, stepYear,
      statAt, yearsMax, colSum, reduceVintages, reduceGo, locSet,
      rangeInt_cons, rangeInt_nil, List.getLastD, List.find?]
    norm_num
  rw [h]
  intro hc
  have := Option.some.inj hc
  norm_num at this

set_option maxHeartbeats 4000000 in
/-- C2 amended — growth scenario `{2000: 100, 2001: 120}`, `life = 10`, Flat
mode: after the initial distribution the survivor sum at 2001 is 90 (the 1991
vintage has expired), so the forward step for 2001 creates a vintage of
`120 - 90 = 30`, and the reconciliation invariant holds at 2001 (survivor
sum 120). -/
theorem C2_amended :
    colSum (setInitial_Flat (initMat 2000 2001 10)
      [((2000 : ℤ), (100 : ℚ)), (2001, 120)] 10) 2001 = 90 ∧
    (buildMat [((2000 : ℤ), (100 : ℚ)), (2001, 120)] 10 false).val 2001 2001 = some 30 ∧
    colSum (buildMat [((2000 : ℤ), (100 : ℚ)), (2001, 120)] 10 false) 2001 = 120 := by
  refine ⟨?_, ?_, ?_⟩
  · simp [setInitial_Flat, initMat, colSum, locSet, rangeInt_cons, rangeInt_nil]
    norm_num
  · simp [buildMat, setInitial_Flat, setHistorical, walkYears, stepYear,
      statAt, yearsMax, colSum, reduceVintages, reduceGo, locSet,
      rangeInt_cons, rangeInt_nil, List.getLastD, List.find?]
    norm_num
  · simp [buildMat, setInitial_Flat, setHistorical, walkYears, stepYear,
      statAt, yearsMax, colSum, reduceVintages, reduceGo, locSet,
      rangeInt_cons, rangeInt_nil, List.getLastD, List.find?]
    norm_num

set_option maxHeartbeats 4000000 in
/-- C3 counterexample — statistic series `{2000: 100, 2001: -50}`, `life = 10`,
Flat mode: the step at 2001 invokes the reducer with deficit 140 while only 90
of surviving capacity exists.  Replaying that exact invocation, the loop
variable `addition` is still `-50` when the loop exhausts all vintages (the
deficit is silently dropped, no error of any kind is raised), and the run
completes normally with survivor sum 0 at 2001 instead of the observed -50. -/
theorem C3_counterexample :
    (-50 : ℚ) - colSum (setInitial_Flat (initMat 2000 2001 10)
        [((2000 : ℤ), (100 : ℚ)), (2001, -50)] 10) 2001 = -140 ∧
    reduceShortfall (-140)
      (locSet (setInitial_Flat (initMat 2000 2001 10)
        [((2000 : ℤ), (100 : ℚ)), (2001, -50)] 10) 2001 2001 2010 0) 10 2001 = -50 ∧
    colSum (buildMat [((2000 : ℤ), (100 : ℚ)), (2001, -50)] 10 false) 2001 = 0 := by
  refine ⟨?_, ?_, ?_⟩
  · simp [setInitial_Flat, initMat, colSum, locSet, rangeInt_cons, rangeInt_nil]
    norm_num
  · simp [reduceShortfall, reduceShortfallGo, setInitial_Flat, initMat, locSet,
      rangeInt_cons, rangeInt_nil]
    norm_num [abs_of_pos, abs_of_nonpos]
  · simp [buildMat, setInitial_Flat, setHistorical, walkYears, stepYear,
      statAt, yearsMax, colSum, reduceVintages, reduceGo, locSet,
      rangeInt_cons, rangeInt_nil, List.getLastD, List.find?]
    norm_num [abs_of_pos, abs_of_nonpos]

set_option maxHeartbeats 4000000 in
/-- C5 — **Flat-mode sum property** (confirmed): with `life = 5` and the
single statistic `{2000: 100}`, Flat mode produces exactly the five
pre-history vintages 1996–2000 (these are exactly the ledger's rows), each
with built capacity 20, and their combined surviving capacity at 2000 is
exactly 100. -/
theorem C5_flat_mode :
    (buildMat [((2000 : ℤ), (100 : ℚ))] 5 false).rows = [1996, 1997, 1998, 1999, 2000] ∧
    outputRows [((2000 : ℤ), (100 : ℚ))] 5 false 2000
      = [(1996, 20), (1997, 20), (1998, 20), (1999, 20), (2000, 20)] ∧
    (buildMat [((2000 : ℤ), (100 : ℚ))] 5 false).val 1996 1996 = some 20 ∧
    (buildMat [((2000 : ℤ), (100 : ℚ))] 5 false).val 2000 2000 = some 20 ∧
    colSum (buildMat [((2000 : ℤ), (100 : ℚ))] 5 false) 2000 = 100 := by
  refine ⟨?_, ?_, ?_, ?_, ?_⟩ <;>
    simp [buildMat, setInitial_Flat, setHistorical, walkYears, stepYear,
      statAt, yearsMax, colSum, reduceVintages, reduceGo, locSet, outputRows, isclose0,
      rangeInt_cons, rangeInt_nil, List.getLastD, List.find?] <;>
    norm_num

set_option maxHeartbeats 4000000 in
/-- C6 — **Triangular-mode property** (confirmed): with `life = 4` and the
single statistic `{2010: 40}`, Triangular mode produces the four vintages
2007–2010 with strictly increasing built capacities `5/2 < 15/2 < 25/2 <
35/2` (oldest smallest), and their combined surviving capacity at 2010 is
exactly 40. -/
theorem C6_triangular_mode :
    outputRows [((2010 : ℤ), (40 : ℚ))] 4 true 2010
      = [(2007, 5/2), (2008, 15/2), (2009, 25/2), (2010, 35/2)] ∧
    ((5 : ℚ)/2 < 15/2 ∧ (15 : ℚ)/2 < 25/2 ∧ (25 : ℚ)/2 < 35/2) ∧
    (buildMat [((2010 : ℤ), (40 : ℚ))] 4 true).val 2007 2007 = some (5/2) ∧
    (buildMat [((2010 : ℤ), (40 : ℚ))] 4 true).val 2010 2010 = some (35/2) ∧
    colSum (buildMat [((2010 : ℤ), (40 : ℚ))] 4 true) 2010 = 40 := by
  refine ⟨?_, by norm_num, ?_, ?_, ?_⟩ <;>
    simp [buildMat, setInitial_Triangle, setHistorical, walkYears, stepYear,
      statAt, yearsMax, colSum, reduceVintages, reduceGo, locSet, outputRows, isclose0,
      rangeInt_cons, rangeInt_nil, List.getLastD, List.find?, List.range_succ] <;>
    norm_num [abs_of_pos]

/-- C7 counterexample — gap scenario `{2000: 100, 2003: 100}`, `life = 10`:
the forward walk starts at the second observed year (2003), so the vintage
row 2001 is never assigned: its cell stays `NaN` (`none`), not 0 as the
claim states. -/
theorem C7_counterexample :
    ¬ ((buildMat [((2000 : ℤ), (100 : ℚ)), (2003, 100)] 10 false).val 2001 2001
        = some 0) := by
  have hbuild : buildMat [((2000 : ℤ), (100 : ℚ)), (2003, 100)] 10 false
      = stepYear [((2000 : ℤ), (100 : ℚ)), (2003, 100)] 10
          (setInitialMode false (initMat 2000 2003 10)
            [((2000 : ℤ), (100 : ℚ)), (2003, 100)] 10) 2003 := by
    rw [buildMat_eq]
    rw [if_pos (by decide : (2000 : ℤ) < ([((2003 : ℤ), (100 : ℚ))].getLastD (2000, 100)).1)]
    rfl
  have h : (buildMat [((2000 : ℤ), (100 : ℚ)), (2003, 100)] 10 false).val 2001 2001
      = none := by
    rw [hbuild]
    exact stepYear_val_none_high _ 10 2003 _
      (fun c => setInitialMode_val_high false 2000 2003 100 [(2003, 100)] 10 (by norm_num) c)
      (by norm_num) 2001
  rw [h]
  simp

set_option maxHeartbeats 4000000 in
/-- C8 counterexample — the decomposition performs no input-shape validation:
on the non-monotonic series `{2001: 50, 2000: 80}` (years in decreasing
order) with `life = 3` it silently builds a ledger (the 2001 vintage holds
`50/3`) instead of rejecting the group. -/
theorem C8_counterexample :
    (buildMat [((2001 : ℤ), (50 : ℚ)), (2000, 80)] 3 false).val 2001 2001
      = some (50/3) := by
  simp [buildMat, setInitial_Flat, setHistorical, walkYears, stepYear,
    statAt, yearsMax, colSum, reduceVintages, reduceGo, locSet,
    rangeInt_cons, rangeInt_nil, List.getLastD, List.find?]

set_option maxHeartbeats 4000000 in
/-- C8 amended — there is no shape validation and no `InputShapeError`: an
empty series simply produces no ledger rows and no cells (`groupby` yields no
group), while a non-monotonic series is processed without rejection and emits
ordinary output rows. -/
theorem C8_amended :
    (buildMat ([] : List (ℤ × ℚ)) 3 false).rows = [] ∧
    (∀ r c : ℤ, (buildMat ([] : List (ℤ × ℚ)) 3 false).val r c = none) ∧
    outputRows [((2001 : ℤ), (50 : ℚ)), (2000, 80)] 3 false 2001
      = [(1999, 50/3), (2000, 50/3), (2001, 50/3)] := by
  refine ⟨rfl, fun r c => rfl, ?_⟩
  simp [buildMat, setInitial_Flat, setHistorical, walkYears, stepYear,
    statAt, yearsMax, colSum, reduceVintages, reduceGo, locSet, outputRows, isclose0,
    rangeInt_cons, rangeInt_nil, List.getLastD, List.find?]
  norm_num [abs_of_pos]

theorem stepYear_eq_add (stats : List (ℤ × ℚ)) (life : ℕ) {year : ℤ} {cap : ℚ} (m : Mat)
    (hstat : statAt stats year = some cap) (h : 0 ≤ cap - colSum m year) :
    stepYear stats life m year
      = locSet m year year (year + (life : ℤ) - 1) (cap - colSum m year) := by
  unfold stepYear
  rw [hstat]
  show (if 0 ≤ cap - colSum m year then
      locSet m year year (year + (life : ℤ) - 1) (cap - colSum m year)
    else reduceVintages (cap - colSum m year)
      (locSet m year year (year + (life : ℤ) - 1) 0) life year) = _
  exact if_pos h

/-- C7 amended — gap scenario `{2000: 100, 2003: 100}`, `life = 10`: the
`setHistorical` walk starts at `df.index[1] = 2003`, so the gap years 2001
and 2002 are never visited: their ledger rows remain entirely unset (`NaN`,
contributing nothing to survivor sums) rather than being recorded as 0; the
VintageReducer is not invoked at any year of the run (in particular not at
the gap years), and the step at 2003 creates a vintage of `100 - 70 = 30`. -/
theorem C7_amended :
    (∀ c : ℤ, (buildMat [((2000 : ℤ), (100 : ℚ)), (2003, 100)] 10 false).val 2001 c
        = none) ∧
    (∀ c : ℤ, (buildMat [((2000 : ℤ), (100 : ℚ)), (2003, 100)] 10 false).val 2002 c
        = none) ∧
    reducerYearsRun [((2000 : ℤ), (100 : ℚ)), (2003, 100)] 10 false = [] ∧
    (buildMat [((2000 : ℤ), (100 : ℚ)), (2003, 100)] 10 false).val 2003 2003
      = some 30 := by
  have hbuild : buildMat [((2000 : ℤ), (100 : ℚ)), (2003, 100)] 10 false
      = stepYear [((2000 : ℤ), (100 : ℚ)), (2003, 100)] 10
          (setInitialMode false (initMat 2000 2003 10)
            [((2000 : ℤ), (100 : ℚ)), (2003, 100)] 10) 2003 := by
    rw [buildMat_eq]
    rw [if_pos (by decide : (2000 : ℤ) < ([((2003 : ℤ), (100 : ℚ))].getLastD (2000, 100)).1)]
    rfl
  have hval2001 : ∀ c : ℤ, (setInitialMode false (initMat 2000 2003 10)
      [((2000 : ℤ), (100 : ℚ)), (2003, 100)] 10).val 2001 c = none :=
    fun c => setInitialMode_val_high false 2000 2003 100 [(2003, 100)] 10 (by norm_num) c
  have hval2002 : ∀ c : ℤ, (setInitialMode false (initMat 2000 2003 10)
      [((2000 : ℤ), (100 : ℚ)), (2003, 100)] 10).val 2002 c = none :=
    fun c => setInitialMode_val_high false 2000 2003 100 [(2003, 100)] 10 (by norm_num) c
  have hstat : statAt [((2000 : ℤ), (100 : ℚ)), (2003, 100)] 2003 = some 100 := rfl
  have hcol : colSum (setInitialMode false (initMat 2000 2003 10)
      [((2000 : ℤ), (100 : ℚ)), (2003, 100)] 10) 2003 = 70 := by
    rw [setInitialMode_eq]
    rw [initFold_colSum 10 _ _ _ (rangeInt_nodup _ _) (initMat_offRows _ _ _)
      (rangeInt_nodup _ _) (fun _ _ _ => rfl) 2003, initMat_colSum]
    norm_num [rangeInt_cons, rangeInt_nil, modeVal, initMat]
  refine ⟨?_, ?_, ?_, ?_⟩
  · intro c
    rw [hbuild]
    exact stepYear_val_none_high _ 10 2003 _ hval2001 (by norm_num) c
  · intro c
    rw [hbuild]
    exact stepYear_val_none_high _ 10 2003 _ hval2002 (by norm_num) c
  · have h1 : reducerYearsRun [((2000 : ℤ), (100 : ℚ)), (2003, 100)] 10 false
        = (if stepInvokesReducer [((2000 : ℤ), (100 : ℚ)), (2003, 100)] 10
              (setInitialMode false (initMat 2000 2003 10)
                [((2000 : ℤ), (100 : ℚ)), (2003, 100)] 10) 2003
            then [2003] else []) ++ [] := rfl
    have hinv : stepInvokesReducer [((2000 : ℤ), (100 : ℚ)), (2003, 100)] 10
        (setInitialMode false (initMat 2000 2003 10)
          [((2000 : ℤ), (100 : ℚ)), (2003, 100)] 10) 2003 = false := by
      unfold stepInvokesReducer
      rw [hstat]
      show decide ((100 : ℚ) - colSum _ 2003 < 0) = false
      rw [hcol]
      simp only [decide_eq_false_iff_not]
      norm_num
    rw [h1, hinv]
    rfl
  · rw [hbuild, stepYear_eq_add _ 10 _ hstat (by rw [hcol]; norm_num)]
    rw [locSet_val_inside _ _ _ (by norm_num) (by norm_num)]
    rw [hcol]
    norm_num
